import Mathlib

/-!
Verification of the weekly-activity-reporting backend (`backend-rapport`).

The development shallowly embeds the parts of the code base that carry the
invariants under scrutiny:

* `app/utils/datetime_utils.py` — the ISO-week temporal model
  (`validate_iso_week_format`, `iso_week_to_date_range`, `date_to_iso_week`,
  `get_week_range`);
* `app/api/v1/reports.py` — `create_report`, `get_report`, `update_report`,
  the weekly statistics aggregation pipeline;
* `app/api/v1/messages.py` — `broadcast_message`, `get_message`,
  `mark_message_as_read`;
* `app/api/v1/users.py` — `delete_user`;
* the pydantic models of `app/models/report.py` and `app/models/message.py`.

Conventions of the embedding:

* MongoDB collections are Lean lists in natural (insertion) order;
  `find_one` is `List.find?`, `update_one` updates the first match,
  `delete_many` filters, `insert_one`/`insert_many` append.
* `ObjectId` values are carried as their 24-character lowercase hex string
  (`str(oid)`); `ObjectId.is_valid` accepts 24 hex characters and the
  constructor normalises case.
* Python `datetime` values are represented by their proleptic Gregorian
  ordinal (`datetime.toordinal()`, an integer, day 1 = 0001-01-01) plus,
  where needed, a second-of-day; `datetime.utcnow()` becomes an explicit
  `now` parameter.
* Python floats (task hours, total hours) are modelled as rationals.
* `re` digit classes are modelled as ASCII digits and Python `str.split`
  on the separator "-W" is implemented directly on character lists.
* A raised `HTTPException(status_code, detail)` becomes
  `Except.error (HErr.mk status_code detail)`; endpoints that mutate the
  store return the store alongside the result, so that error paths expose
  exactly which writes had already happened.
-/

/-! ## Characters, digits, decimal formatting -/

/-- Decimal digit character for `d` (used for Python's `str(int)` and
format-spec rendering): `dc 0 = '0'`, …, `dc 9 = '9'`. -/
def dc (d : Nat) : Char := Char.ofNat (48 + d)

/-- Fuelled helper for `natDigits` (structural recursion keeps the
function kernel-computable; the fuel is irrelevant once it exceeds the
number). -/
def natDigitsAux : Nat → Nat → List Char
  | 0, _ => []
  | fuel + 1, n => if n < 10 then [dc n] else natDigitsAux fuel (n / 10) ++ [dc (n % 10)]

/-- Decimal representation of a natural number as a list of characters,
most significant digit first; mirrors Python's `str`/`f"{n}"` rendering
of a non-negative int. -/
def natDigits (n : Nat) : List Char := natDigitsAux (n + 1) n

/-- Python `f"{n:02d}"`: decimal digits left-padded with `'0'` to width 2. -/
def pad2 (n : Nat) : List Char :=
  let d := natDigits n
  if d.length < 2 then '0' :: d else d

/-- Zero-padding to width 4 (canonical `YYYY` rendering of a year). -/
def pad4 (n : Nat) : List Char :=
  let d := natDigits n
  List.replicate (4 - d.length) '0' ++ d

/-- Value of a decimal digit character. -/
def digitVal (c : Char) : Nat := c.toNat - 48

/-- Python `int(s)` restricted to the strings this code feeds it: a
non-empty all-digit string parses to its value, anything else raises
(`none`). -/
def pyInt (l : List Char) : Option Nat :=
  if l ≠ [] ∧ l.all Char.isDigit then
    some (l.foldl (fun acc c => 10 * acc + digitVal c) 0)
  else none

/-- Python string comparison `a <= b`: lexicographic on code points. -/
def pyCharsLe : List Char → List Char → Bool
  | [], _ => true
  | _ :: _, [] => false
  | a :: as, b :: bs =>
    if a.toNat < b.toNat then true
    else if b.toNat < a.toNat then false
    else pyCharsLe as bs

/-- Python `s <= t` on strings. -/
def pyStrLe (a b : String) : Bool := pyCharsLe a.data b.data

/-- Fuelled scanner for `splitDashW`; `acc` is the current segment in
reverse. Structural recursion on the fuel keeps it kernel-computable;
`splitDashW` always supplies enough fuel. -/
def splitDashWAux : Nat → List Char → List Char → List (List Char)
  | 0, acc, l => [acc.reverse ++ l]
  | fuel + 1, acc, l =>
    match l with
    | [] => [acc.reverse]
    | c :: rest =>
      if c = '-' ∧ rest.head? = some 'W' then acc.reverse :: splitDashWAux fuel [] rest.tail
      else splitDashWAux fuel (c :: acc) rest

/-- Python `s.split("-W")`: split on every non-overlapping occurrence of
the two-character separator `-W`, scanning left to right. -/
def splitDashW (l : List Char) : List (List Char) := splitDashWAux l.length [] l

/-! ## ObjectId model -/

/-- `bson.ObjectId.is_valid` on a string: exactly 24 hexadecimal digits. -/
def isValidOid (s : String) : Bool :=
  s.data.length == 24 && s.data.all fun c =>
    c.isDigit || ('a' ≤ c && c ≤ 'f') || ('A' ≤ c && c ≤ 'F')

/-- `str(ObjectId(s))`: the constructor normalises the hex string to lower
case. -/
def oidOf (s : String) : String := ⟨s.data.map Char.toLower⟩

/-! ## Temporal model: `app/utils/datetime_utils.py`

Dates are proleptic Gregorian ordinals (`datetime.toordinal()`). The
`datetime` library limits years to 1–9999; constructions that would leave
that range raise in Python and return `none` here. -/

/-- Ordinal of January 1st of year `y` (CPython `_ymd2ord(y, 1, 1)`):
day 1 is 0001-01-01. -/
def jan1Ordinal (y : Int) : Int :=
  1 + 365 * (y - 1) + (y - 1) / 4 - (y - 1) / 100 + (y - 1) / 400

/-- Python `date.weekday()` from the ordinal: Monday = 0 … Sunday = 6. -/
def ordWeekday (ord : Int) : Int := (ord + 6) % 7

/-- Ordinal of the last representable date, 9999-12-31
(`datetime.max.toordinal()`). -/
def maxOrdinal : Int := 3652059

/-- A `datetime` instant: day ordinal plus second of day. -/
structure PyDateTime where
  ord : Int
  sec : Nat
deriving DecidableEq, Repr

/-- Numeric core of `iso_week_to_date_range` (datetime_utils.py, lines
19–40) after `week_iso.split('-W')` and `int` conversion: January 1st of
the year, the "first Monday" offset (one extra week when January 1st
falls after Thursday), then `week - 1` whole weeks; the end of the range
is 6 days 23:59:59 later. `none` models the `datetime` constructor or
arithmetic raising outside years 1–9999. -/
def isoWeekToDateRangeNum (year week : Nat) : Option (PyDateTime × PyDateTime) :=
  if year < 1 ∨ 9999 < year then none
  else
    let jan1 : Int := jan1Ordinal year
    let wd : Int := ordWeekday jan1
    let daysToMonday : Int := (7 - wd) % 7 + (if 3 < wd then 7 else 0)
    let firstMonday : Int := jan1 + daysToMonday
    let weekStart : Int := firstMonday + 7 * ((week : Int) - 1)
    let weekEnd : Int := weekStart + 6
    if weekStart < 1 ∨ maxOrdinal < weekEnd then none
    else some (⟨weekStart, 0⟩, ⟨weekEnd, 86399⟩)

/-- `week_iso.split('-W')` followed by `int(year)`, `int(week)`; `none`
models the `ValueError`/unpacking errors Python raises when the string
does not split into two int-parsable parts. -/
def parseWeekIso (s : String) : Option (Nat × Nat) :=
  match splitDashW s.data with
  | [y, w] =>
    match pyInt y, pyInt w with
    | some a, some b => some (a, b)
    | _, _ => none
  | _ => none

/-- `iso_week_to_date_range` (datetime_utils.py, lines 19–40). -/
def iso_week_to_date_range (week_iso : String) : Option (PyDateTime × PyDateTime) :=
  (parseWeekIso week_iso).bind fun p => isoWeekToDateRangeNum p.1 p.2

/-- CPython `_isoweek1monday(year)`: the Monday starting ISO week 1 of
`year` (the week containing the first Thursday). -/
def isoweek1monday (year : Int) : Int :=
  let firstday := jan1Ordinal year
  let firstweekday := (firstday + 6) % 7
  let week1monday := firstday - firstweekday
  if 3 < firstweekday then week1monday + 7 else week1monday

/-- Year of an ordinal, per the year-extraction part of CPython
`_ord2ymd`. -/
def yearOfOrdinal (ord : Int) : Int :=
  let n := ord - 1
  let n400 := n / 146097
  let n := n % 146097
  let n100 := n / 36524
  let n := n % 36524
  let n4 := n / 1461
  let n := n % 1461
  let n1 := n / 365
  let year := 400 * n400 + 100 * n100 + 4 * n4 + n1 + 1
  if n1 = 4 ∨ n100 = 4 then year - 1 else year

/-- CPython `date.isocalendar()` restricted to the year and week
components: ISO year and ISO week number of a date given by its
ordinal. -/
def isocalendarYW (ord : Int) : Int × Int :=
  let year := yearOfOrdinal ord
  let week1monday := isoweek1monday year
  let week := (ord - week1monday) / 7
  if week < 0 then
    let year := year - 1
    let week1monday := isoweek1monday year
    (year, (ord - week1monday) / 7 + 1)
  else if 52 ≤ week then
    if isoweek1monday (year + 1) ≤ ord then (year + 1, 1)
    else (year, week + 1)
  else (year, week + 1)

/-- Decimal rendering of an integer (Python `f"{i}"`); ISO years here are
always positive but the sign case keeps the function total. -/
def intDigits (i : Int) : List Char :=
  if i < 0 then '-' :: natDigits i.natAbs else natDigits i.toNat

/-- `date_to_iso_week` (datetime_utils.py, lines 43–46):
`f"{year}-W{week:02d}"` over `date.isocalendar()`. The week component of
`isocalendar` is at least 1, so `{week:02d}` is `pad2` of its value. -/
def date_to_iso_week (d : PyDateTime) : String :=
  let yw := isocalendarYW d.ord
  ⟨intDigits yw.1 ++ '-' :: 'W' :: pad2 yw.2.toNat⟩

/-- `validate_iso_week_format` (datetime_utils.py, lines 55–58): the
regex `^\d{4}-W\d{2}$` (digits modelled as ASCII). -/
def validate_iso_week_format (week_iso : String) : Bool :=
  match week_iso.data with
  | [a, b, c, d, '-', 'W', e, f] =>
    a.isDigit && b.isDigit && c.isDigit && d.isDigit && e.isDigit && f.isDigit
  | _ => false

/-- Loop body of `get_week_range`: from the current week string, the next
week string — `f"{year + 1}-W01"` after week 52, else
`f"{year}-W{week + 1:02d}"`. `none` models a `ValueError` escaping from
`split`/`int`. -/
def nextWeekStr (current : String) : Option String :=
  (parseWeekIso current).map fun p =>
    if p.2 = 52 then ⟨natDigits (p.1 + 1) ++ '-' :: 'W' :: ['0', '1']⟩
    else ⟨natDigits p.1 ++ '-' :: 'W' :: pad2 (p.2 + 1)⟩

/-- The `while current_week <= end_week` loop of `get_week_range`,
with explicit fuel: `none` means the fuel ran out or the loop body
raised, `some` is the accumulated list once the guard fails. -/
def weekRangeLoop : Nat → String → String → List String → Option (List String)
  | 0, _, _, _ => none
  | fuel + 1, current, endW, acc =>
    if pyStrLe current endW then
      match nextWeekStr current with
      | some next => weekRangeLoop fuel next endW (acc ++ [current])
      | none => none
    else some acc

/-- `get_week_range` (datetime_utils.py, lines 61–82): validation of both
bounds, then the accumulation loop (given enough fuel). -/
def get_week_range (fuel : Nat) (start_week end_week : String) :
    Option (Except String (List String)) :=
  if ¬ (validate_iso_week_format start_week && validate_iso_week_format end_week) then
    some (Except.error "Format de semaine invalide")
  else
    (weekRangeLoop fuel start_week end_week []).map Except.ok

/-! ## Store model

One structure per MongoDB collection document, with `Option` fields for
keys that only some document shapes carry (the reports collection holds
both week-based and "simple" reports). -/

/-- A `users` document (the fields this core reads). -/
structure UserR where
  oid : String
  email : String
  name : String
  role : String
  status : String
deriving DecidableEq, Repr

/-- A `messages` document (`MessageInDB`). -/
structure MessageR where
  oid : String
  sender_id : String
  receiver_id : String
  subject : Option String
  content : String
  read_status : Bool
  read_at : Option Nat
  created_at : Nat
deriving DecidableEq, Repr

/-- A task entry of a week-based report (`TaskItem`). -/
structure TaskItemR where
  title : String
  hours : ℚ
  notes : Option String := none
  project : Option String := none
deriving DecidableEq, Repr

/-- A `reports` document. Week-based reports carry `week_iso`, `tasks`
and `total_hours`; simple reports carry `title` (and sections, which no
claim touches) — absent fields are `none`. -/
structure ReportR where
  oid : String
  user_id : String
  week_iso : Option String := none
  tasks : Option (List TaskItemR) := none
  difficulties : Option String := none
  remarks : Option String := none
  total_hours : Option ℚ := none
  status : String
  title : Option String := none
  created_at : Nat
  updated_at : Nat
deriving DecidableEq, Repr

/-- A `comments` document (the fields the cascade logic reads). -/
structure CommentR where
  oid : String
  report_id : String
  admin_id : String
  content : String
  created_at : Nat
deriving DecidableEq, Repr

/-- The backing document store. -/
structure Store where
  users : List UserR
  reports : List ReportR
  comments : List CommentR
  messages : List MessageR
deriving DecidableEq, Repr

/-- A raised `HTTPException`: status code and detail. -/
structure HErr where
  status : Nat
  detail : String
deriving DecidableEq, Repr

/-- `update_one` with a `$set`: rewrite the first document matching the
filter, leave the rest untouched. -/
def updateFirst (p : α → Bool) (f : α → α) : List α → List α
  | [] => []
  | x :: xs => if p x then f x :: xs else x :: updateFirst p f xs

/-- Sum of `task.hours` over a task list (`sum(task.hours for task in
tasks)`). -/
def sumHours (tasks : List TaskItemR) : ℚ := (tasks.map (·.hours)).sum

/-! ## `app/api/v1/messages.py` -/

/-- A `MessageResponse` (denormalised read view of a message). -/
structure MessageResponseM where
  oid : String
  sender_id : String
  sender_name : String
  receiver_id : String
  receiver_name : String
  subject : Option String
  content : String
  read_status : Bool
  read_at : Option Nat
  created_at : Nat
deriving DecidableEq, Repr

/-- `get_message` (messages.py, lines 259–353): lookup by id, sender and
receiver joins, sender-or-receiver permission check, and the automatic
mark-as-read when the receiver views an unread message. -/
def get_message (s : Store) (cu : UserR) (message_id : String) (now : Nat) :
    Except HErr MessageResponseM × Store :=
  if ¬ isValidOid message_id then (.error ⟨400, "ID message invalide"⟩, s)
  else
    match s.messages.find? (fun m => m.oid == oidOf message_id) with
    | none => (.error ⟨404, "Message non trouvé"⟩, s)
    | some m =>
      let senderName := ((s.users.find? (fun u => u.oid == m.sender_id)).map (·.name)).getD
        "Utilisateur inconnu"
      let receiverName := ((s.users.find? (fun u => u.oid == m.receiver_id)).map (·.name)).getD
        "Utilisateur inconnu"
      let userIsSender := m.sender_id == cu.oid
      let userIsReceiver := m.receiver_id == cu.oid
      if ¬ userIsSender ∧ ¬ userIsReceiver then
        (.error ⟨403, "Accès non autorisé à ce message"⟩, s)
      else
        let doMark := userIsReceiver && !m.read_status
        let setRead := fun mm : MessageR => { mm with read_status := true, read_at := some now }
        let msgs' := updateFirst (fun mm => mm.oid == oidOf message_id) setRead s.messages
        let s' := if doMark then { s with messages := msgs' } else s
        let shown := if doMark then { m with read_status := true, read_at := some now } else m
        (.ok { oid := shown.oid, sender_id := shown.sender_id, sender_name := senderName,
               receiver_id := shown.receiver_id, receiver_name := receiverName,
               subject := shown.subject, content := shown.content,
               read_status := shown.read_status, read_at := shown.read_at,
               created_at := shown.created_at }, s')

/-- `mark_message_as_read` (messages.py, lines 356–406): the receiver
looks the message up, then an unconditional `$set` of `read_status` and
`read_at`. -/
def mark_message_as_read (s : Store) (cu : UserR) (message_id : String) (now : Nat) :
    Except HErr String × Store :=
  if ¬ isValidOid message_id then (.error ⟨400, "ID message invalide"⟩, s)
  else
    match s.messages.find? (fun m => m.oid == oidOf message_id && m.receiver_id == cu.oid) with
    | none => (.error ⟨404, "Message non trouvé ou accès non autorisé"⟩, s)
    | some _ =>
      let setRead := fun mm : MessageR => { mm with read_status := true, read_at := some now }
      let msgs' := updateFirst (fun mm => mm.oid == oidOf message_id) setRead s.messages
      (.ok "Message marqué comme lu", { s with messages := msgs' })

/-- Body of a broadcast request (`MessageBroadcast`; pydantic requires at
least one receiver id). -/
structure BroadcastData where
  receiver_ids : List String
  subject : Option String
  content : String
deriving DecidableEq, Repr

/-- One stored message of a broadcast (`MessageInDB` defaults: unread,
`read_at` null). -/
def mkBroadcastMsg (cu : UserR) (bd : BroadcastData) (now : Nat) (oid : String)
    (receiver : UserR) : MessageR :=
  { oid := oid, sender_id := cu.oid, receiver_id := receiver.oid, subject := bd.subject,
    content := bd.content, read_status := false, read_at := none, created_at := now }

/-- `broadcast_message` (messages.py, lines 99–187): validate every
receiver id, fetch all matching active employees in one query, reject the
whole request if the count differs, otherwise `insert_many` one message
per fetched receiver (with a fresh id drawn from `newId`), re-read them
and join the receiver names. A failed name join raises out of the
handler after the insert (500). -/
def broadcast_message (s : Store) (cu : UserR) (bd : BroadcastData) (now : Nat)
    (newId : Nat → String) : Except HErr (List MessageResponseM) × Store :=
  match bd.receiver_ids.find? (fun rid => ¬ isValidOid rid) with
  | some rid => (.error ⟨400, "ID destinataire invalide: " ++ rid⟩, s)
  | none =>
    let receiverObjectIds := bd.receiver_ids.map oidOf
    let receivers := s.users.filter fun u =>
      receiverObjectIds.contains u.oid && u.role == "employee" && u.status == "active"
    if receivers.length ≠ bd.receiver_ids.length then
      (.error ⟨400, "Certains destinataires sont invalides ou inactifs"⟩, s)
    else
      let ids := (List.range receivers.length).map newId
      let newMsgs := List.zipWith (mkBroadcastMsg cu bd now) ids receivers
      let s' := { s with messages := s.messages ++ newMsgs }
      let created := s'.messages.filter fun m => (newMsgs.map (·.oid)).contains m.oid
      let respOf : MessageR → Option MessageResponseM := fun m =>
        (receivers.find? (fun r => r.oid == m.receiver_id)).map fun r =>
          { oid := m.oid, sender_id := m.sender_id, sender_name := cu.name,
            receiver_id := m.receiver_id, receiver_name := r.name, subject := m.subject,
            content := m.content, read_status := m.read_status, read_at := m.read_at,
            created_at := m.created_at }
      match created.mapM respOf with
      | some resps => (.ok resps, s')
      | none => (.error ⟨500, "Erreur lors de l'envoi du message groupé"⟩, s')

/-! ## `app/api/v1/reports.py` -/

/-- A validated `ReportCreate` body. -/
structure ReportCreateData where
  week_iso : String
  tasks : List TaskItemR
  difficulties : Option String := none
  remarks : Option String := none
deriving DecidableEq, Repr

/-- A validated `ReportUpdate` body (`None` fields are left untouched). -/
structure ReportUpdateData where
  tasks : Option (List TaskItemR) := none
  difficulties : Option String := none
  remarks : Option String := none
deriving DecidableEq, Repr

/-- A `ReportResponse` for a week-based report. -/
structure ReportResponseM where
  oid : String
  user_id : String
  user_name : String
  week_iso : String
  tasks : List TaskItemR
  difficulties : Option String
  remarks : Option String
  total_hours : ℚ
  status : String
  created_at : Nat
  updated_at : Nat
deriving DecidableEq, Repr

/-- Build the `ReportResponse` from a stored document; a document missing
the week-report fields makes the handler's field accesses raise
(`KeyError` → 500 via the generic handler). -/
def reportResponseOf (userName : String) (detail500 : String) (r : ReportR) :
    Except HErr ReportResponseM :=
  match r.week_iso, r.tasks, r.total_hours with
  | some w, some ts, some th =>
    .ok { oid := r.oid, user_id := r.user_id, user_name := userName, week_iso := w,
          tasks := ts, difficulties := r.difficulties, remarks := r.remarks,
          total_hours := th, status := r.status, created_at := r.created_at,
          updated_at := r.updated_at }
  | _, _, _ => .error ⟨500, detail500⟩

/-- `create_report` (reports.py, lines 188–263): employees only, the
(user, week) uniqueness probe, `ReportInDB` construction (status
`submitted`) with `calculate_total_hours` (report.py, lines 67–69), the
insert, and the re-read of the created document. -/
def create_report (s : Store) (cu : UserR) (rd : ReportCreateData) (now : Nat)
    (newId : String) : Except HErr ReportResponseM × Store :=
  if cu.role ≠ "employee" then
    (.error ⟨403, "Seuls les employés peuvent créer des rapports"⟩, s)
  else
    match s.reports.find? (fun r => r.user_id == cu.oid && r.week_iso == some rd.week_iso) with
    | some _ => (.error ⟨400, "Un rapport existe déjà pour la semaine " ++ rd.week_iso⟩, s)
    | none =>
      let newR : ReportR :=
        { oid := newId, user_id := cu.oid, week_iso := some rd.week_iso,
          tasks := some rd.tasks, difficulties := rd.difficulties, remarks := rd.remarks,
          total_hours := some (sumHours rd.tasks), status := "submitted",
          created_at := now, updated_at := now }
      let s' := { s with reports := s.reports ++ [newR] }
      match s'.reports.find? (fun r => r.oid == newR.oid) with
      | some cr => (reportResponseOf cu.name "Erreur lors de la création du rapport" cr, s')
      | none => (.error ⟨500, "Erreur lors de la création du rapport"⟩, s')

/-- `get_report` (reports.py, lines 368–436): lookup by id alone (plus
the user join), then the explicit role/ownership check — an employee who
does not own the report gets 403 on an existing report. -/
def get_report (s : Store) (cu : UserR) (report_id : String) : Except HErr ReportResponseM :=
  if ¬ isValidOid report_id then .error ⟨400, "ID rapport invalide"⟩
  else
    match s.reports.find? (fun r => r.oid == oidOf report_id) with
    | none => .error ⟨404, "Rapport non trouvé"⟩
    | some r =>
      let userName := ((s.users.find? (fun u => u.oid == r.user_id)).map (·.name)).getD
        "Utilisateur inconnu"
      if cu.role == "employee" && r.user_id != cu.oid then
        .error ⟨403, "Accès non autorisé à ce rapport"⟩
      else
        reportResponseOf userName "Erreur lors de la récupération du rapport" r

/-- The `$set` document of `update_report`: replacement task list (with
`total_hours` recomputed from it alone), optional difficulties/remarks,
fresh `updated_at`. -/
def applyReportUpdate (ru : ReportUpdateData) (now : Nat) (r : ReportR) : ReportR :=
  let r1 := match ru.tasks with
    | some ts => { r with tasks := some ts, total_hours := some (sumHours ts) }
    | none => r
  let r2 := match ru.difficulties with
    | some d => { r1 with difficulties := some d }
    | none => r1
  let r3 := match ru.remarks with
    | some rm => { r2 with remarks := some rm }
    | none => r2
  { r3 with updated_at := now }

/-- `update_report` (reports.py, lines 439–515): owner-scoped lookup
(absence conflated to 404), `$set` of the replacement fields, re-read,
response. -/
def update_report (s : Store) (cu : UserR) (report_id : String) (ru : ReportUpdateData)
    (now : Nat) : Except HErr ReportResponseM × Store :=
  if ¬ isValidOid report_id then (.error ⟨400, "ID rapport invalide"⟩, s)
  else
    match s.reports.find? (fun r => r.oid == oidOf report_id && r.user_id == cu.oid) with
    | none => (.error ⟨404, "Rapport non trouvé ou accès non autorisé"⟩, s)
    | some _ =>
      let reports' := updateFirst (fun r => r.oid == oidOf report_id)
        (applyReportUpdate ru now) s.reports
      let s' := { s with reports := reports' }
      match s'.reports.find? (fun r => r.oid == oidOf report_id) with
      | some ur => (reportResponseOf cu.name "Erreur lors de la mise à jour du rapport" ur, s')
      | none => (.error ⟨500, "Erreur lors de la mise à jour du rapport"⟩, s')

/-- One row of the weekly statistics aggregation (`$group` then
`$project`). -/
structure WeeklyStatRow where
  week_iso : Option String
  total_reports : Nat
  total_hours : ℚ
  employees_reported : Nat
  average_hours_per_employee : ℚ
deriving DecidableEq, Repr

/-- The `$match` filter of `get_weekly_stats`: a `$gte`/`$lte` range on
`week_iso` when both bounds are given, `$gte` alone when only
`start_week` is, no filter otherwise (an `end_week` alone is ignored).
Mongo string comparison is bytewise, i.e. `pyStrLe` on these ASCII
strings; a range query never matches documents missing the field. -/
def weekFilterMatches (start_week end_week : Option String) (r : ReportR) : Bool :=
  match start_week, end_week with
  | some sw, some ew =>
    match r.week_iso with
    | some w => pyStrLe sw w && pyStrLe w ew
    | none => false
  | some sw, none =>
    match r.week_iso with
    | some w => pyStrLe sw w
    | none => false
  | none, _ => true

/-- The `$group` + `$project` stages over the matched reports: one row
per distinct `week_iso` value with report count, summed `total_hours`
(a missing field contributes 0 to `$sum`), the `$addToSet` of owning
user ids, and the division guarded by `$cond` on the set size. -/
def weeklyStatRows (matched : List ReportR) : List WeeklyStatRow :=
  ((matched.map (·.week_iso)).dedup).map fun k =>
    let g := matched.filter (fun r => r.week_iso == k)
    let th := (g.map (fun r => r.total_hours.getD 0)).sum
    let emps := (g.map (·.user_id)).dedup
    { week_iso := k, total_reports := g.length, total_hours := th,
      employees_reported := emps.length,
      average_hours_per_employee :=
        if 0 < emps.length then th / (emps.length : ℚ) else 0 }

/-- Descending `$sort` on `week_iso` (Mongo orders missing/null keys
before strings, so they come last in a descending sort). -/
def weekKeyDescLe (a b : Option String) : Bool :=
  match a, b with
  | none, none => true
  | none, some _ => false
  | some _, none => true
  | some x, some y => pyStrLe y x

/-- The aggregation pipeline of `get_weekly_stats` (reports.py, lines
566–633): optional range validation, `$match`, `$group`, `$project`,
`$sort`. The handler afterwards rounds the average to two decimals while
copying rows into `WeeklyStats`; the pipeline rows themselves are the
object of study here. -/
def get_weekly_stats (s : Store) (start_week end_week : Option String) :
    Except HErr (List WeeklyStatRow) :=
  let formatOk : Bool :=
    match start_week, end_week with
    | some sw, some ew => validate_iso_week_format sw && validate_iso_week_format ew
    | some sw, none => validate_iso_week_format sw
    | none, _ => true
  if ¬ formatOk then .error ⟨400, "Format de semaine invalide"⟩
  else
    let matched := s.reports.filter (weekFilterMatches start_week end_week)
    .ok ((weeklyStatRows matched).mergeSort fun a b => weekKeyDescLe a.week_iso b.week_iso)

/-! ## `app/api/v1/users.py` -/

/-- `delete_user` (users.py, lines 239–294): id validation, existence
check, the self-deletion guard, then the four cascading deletes (owned
reports, authored comments, sent or received messages, the user
document itself). -/
def delete_user (s : Store) (cu : UserR) (user_id : String) : Except HErr String × Store :=
  if ¬ isValidOid user_id then (.error ⟨400, "ID utilisateur invalide"⟩, s)
  else
    match s.users.find? (fun u => u.oid == oidOf user_id) with
    | none => (.error ⟨404, "Utilisateur non trouvé"⟩, s)
    | some u =>
      if u.oid == cu.oid then
        (.error ⟨400, "Impossible de supprimer votre propre compte"⟩, s)
      else
        let oid := oidOf user_id
        let s' : Store :=
          { users := s.users.eraseP (fun u2 => u2.oid == oid),
            reports := s.reports.filter (fun r => !(r.user_id == oid)),
            comments := s.comments.filter (fun c => !(c.admin_id == oid)),
            messages := s.messages.filter (fun m => !(m.sender_id == oid || m.receiver_id == oid)) }
        (.ok "Utilisateur supprimé avec succès", s')

/-! ## Helper lemmas: digits, decimal strings, splitting, parsing -/

deriving instance DecidableEq for Except

theorem dc_toNat : ∀ d, d < 10 → (dc d).toNat = 48 + d := by decide

theorem dc_isDigit : ∀ d, d < 10 → (dc d).isDigit = true := by decide

theorem dc_ne_dash : ∀ d, d < 10 → dc d ≠ '-' := by decide

theorem digitVal_dc : ∀ d, d < 10 → digitVal (dc d) = d := by decide

theorem isDigit_ne_dash {c : Char} (h : c.isDigit = true) : c ≠ '-' := by
  intro hc
  subst hc
  simp [Char.isDigit] at h

/-- Fuel irrelevance for `natDigitsAux`. -/
theorem natDigitsAux_irrel : ∀ f1 f2 n, n < f1 → n < f2 →
    natDigitsAux f1 n = natDigitsAux f2 n := by
  intro f1
  induction f1 with
  | zero => omega
  | succ k ih =>
    intro f2 n h1 h2
    cases f2 with
    | zero => omega
    | succ j =>
      by_cases hn : n < 10
      · simp [natDigitsAux, hn]
      · have hd : n / 10 < k := by omega
        have hd2 : n / 10 < j := by omega
        simp only [natDigitsAux, hn, if_false]
        rw [ih j (n / 10) hd hd2]

/-- Unfolding equation for `natDigits`. -/
theorem natDigits_eq (n : Nat) :
    natDigits n = if n < 10 then [dc n] else natDigits (n / 10) ++ [dc (n % 10)] := by
  by_cases hn : n < 10
  · simp [natDigits, natDigitsAux, hn]
  · simp only [natDigits, hn, if_false]
    have h1 : natDigitsAux (n + 1) n
        = natDigitsAux n (n / 10) ++ [dc (n % 10)] := by
      simp [natDigitsAux, hn]
    rw [h1, natDigitsAux_irrel n (n / 10 + 1) (n / 10) (by omega) (by omega)]

theorem natDigits_ne_nil (n : Nat) : natDigits n ≠ [] := by
  rw [natDigits_eq]
  split <;> simp

theorem natDigits_digits (n : Nat) : ∀ c ∈ natDigits n, c.isDigit = true := by
  induction n using Nat.strong_induction_on with
  | _ n ih =>
    rw [natDigits_eq]
    by_cases hn : n < 10
    · simp only [hn, if_true, List.mem_singleton]
      intro c hc
      subst hc
      exact dc_isDigit n hn
    · simp only [hn, if_false, List.mem_append, List.mem_singleton]
      intro c hc
      rcases hc with hc | hc
      · exact ih (n / 10) (by omega) c hc
      · subst hc
        exact dc_isDigit (n % 10) (by omega)

theorem pad2_digits (n : Nat) : ∀ c ∈ pad2 n, c.isDigit = true := by
  simp only [pad2]
  split
  · intro c hc
    rcases List.mem_cons.mp hc with hc | hc
    · subst hc
      decide
    · exact natDigits_digits n c hc
  · exact natDigits_digits n

/-- Value of a digit string, as `pyInt` computes it. -/
def valD (l : List Char) : Nat := l.foldl (fun a c => 10 * a + digitVal c) 0

theorem valD_foldl_init (l : List Char) : ∀ a : Nat,
    l.foldl (fun x c => 10 * x + digitVal c) a = a * 10 ^ l.length + valD l := by
  induction l with
  | nil => intro a; simp [valD]
  | cons c t ih =>
    intro a
    simp only [List.foldl_cons, List.length_cons, valD]
    rw [ih (10 * a + digitVal c), ih (10 * 0 + digitVal c)]
    ring

theorem valD_cons (c : Char) (t : List Char) :
    valD (c :: t) = digitVal c * 10 ^ t.length + valD t := by
  simp only [valD, List.foldl_cons]
  rw [valD_foldl_init]
  simp only [valD]
  ring_nf

theorem valD_append_single (l : List Char) (c : Char) :
    valD (l ++ [c]) = 10 * valD l + digitVal c := by
  simp only [valD, List.foldl_append, List.foldl_cons, List.foldl_nil]

theorem valD_natDigits (n : Nat) : valD (natDigits n) = n := by
  induction n using Nat.strong_induction_on with
  | _ n ih =>
    rw [natDigits_eq]
    by_cases hn : n < 10
    · simp [hn, valD_cons, valD, digitVal_dc n hn]
    · simp only [hn, if_false]
      rw [valD_append_single, ih (n / 10) (by omega), digitVal_dc (n % 10) (by omega)]
      omega

theorem pyInt_natDigits (n : Nat) : pyInt (natDigits n) = some n := by
  have hall : (natDigits n).all Char.isDigit = true := by
    rw [List.all_eq_true]
    exact natDigits_digits n
  have hcond : natDigits n ≠ [] ∧ (natDigits n).all Char.isDigit = true :=
    ⟨natDigits_ne_nil n, hall⟩
  simp only [pyInt]
  rw [if_pos hcond]
  exact congrArg some (valD_natDigits n)

theorem pyInt_pad2 (n : Nat) : pyInt (pad2 n) = some n := by
  simp only [pad2]
  split
  · have hall : ('0' :: natDigits n).all Char.isDigit = true := by
      rw [List.all_eq_true]
      intro c hc
      rcases List.mem_cons.mp hc with hc | hc
      · subst hc; decide
      · exact natDigits_digits n c hc
    have hval : valD ('0' :: natDigits n) = n := by
      simp only [valD, List.foldl_cons]
      have h0 : (10 * 0 + digitVal '0') = 0 := by decide
      rw [h0]
      exact valD_natDigits n
    have hcond : '0' :: natDigits n ≠ [] ∧ ('0' :: natDigits n).all Char.isDigit = true :=
      ⟨by simp, hall⟩
    simp only [pyInt]
    rw [if_pos hcond]
    exact congrArg some hval
  · exact pyInt_natDigits n

theorem splitDashWAux_no_dash : ∀ (fuel : Nat) (acc l : List Char), l.length ≤ fuel →
    ('-' ∉ l) → splitDashWAux fuel acc l = [acc.reverse ++ l] := by
  intro fuel
  induction fuel with
  | zero =>
    intro acc l hl _
    have : l = [] := by
      cases l
      · rfl
      · simp at hl
    subst this
    simp [splitDashWAux]
  | succ k ih =>
    intro acc l hl hnd
    cases l with
    | nil => simp [splitDashWAux]
    | cons c rest =>
      have hc : c ≠ '-' := by
        intro h
        exact hnd (h ▸ List.mem_cons_self c rest)
      have hcond : ¬ (c = '-' ∧ rest.head? = some 'W') := by
        intro h
        exact hc h.1
      simp only [splitDashWAux, if_neg hcond]
      rw [ih (c :: acc) rest (by simpa using Nat.le_of_succ_le_succ (by simpa using hl))
        (fun h => hnd (List.mem_cons_of_mem c h))]
      simp

theorem splitDashWAux_sep : ∀ (fuel : Nat) (acc l1 r : List Char),
    (l1 ++ '-' :: 'W' :: r).length ≤ fuel → ('-' ∉ l1) → ('-' ∉ r) →
    splitDashWAux fuel acc (l1 ++ '-' :: 'W' :: r) = [acc.reverse ++ l1, r] := by
  intro fuel
  induction fuel with
  | zero =>
    intro acc l1 r hl
    intro _ _
    exfalso
    simp [List.length_append] at hl
  | succ k ih =>
    intro acc l1 r hl h1 hr
    cases l1 with
    | nil =>
      have hstep : splitDashWAux (k + 1) acc ([] ++ '-' :: 'W' :: r)
          = acc.reverse :: splitDashWAux k [] r := by
        simp [splitDashWAux]
      rw [hstep, splitDashWAux_no_dash k [] r (by simp at hl; omega) hr]
      simp
    | cons c t =>
      have hc : c ≠ '-' := by
        intro h
        exact h1 (h ▸ List.mem_cons_self c t)
      have hcond : ¬ (c = '-' ∧ (t ++ '-' :: 'W' :: r).head? = some 'W') := by
        intro h
        exact hc h.1
      simp only [List.cons_append, splitDashWAux, if_neg hcond]
      rw [ih (c :: acc) t r (by simp at hl ⊢; omega) (fun h => h1 (List.mem_cons_of_mem c h)) hr]
      simp

theorem splitDashW_sep (l1 r : List Char) (h1 : '-' ∉ l1) (hr : '-' ∉ r) :
    splitDashW (l1 ++ '-' :: 'W' :: r) = [l1, r] := by
  simp only [splitDashW]
  rw [splitDashWAux_sep _ [] l1 r (le_refl _) h1 hr]
  simp

/-- The canonical week string `f"{y}-W{w:02d}"` (4 digits of year when
`1000 ≤ y ≤ 9999`). -/
def cws (y w : Nat) : String := ⟨natDigits y ++ '-' :: 'W' :: pad2 w⟩

theorem dash_not_mem_natDigits (n : Nat) : '-' ∉ natDigits n := by
  intro h
  exact isDigit_ne_dash (natDigits_digits n '-' h) rfl

theorem dash_not_mem_pad2 (n : Nat) : '-' ∉ pad2 n := by
  intro h
  exact isDigit_ne_dash (pad2_digits n '-' h) rfl

theorem parseWeekIso_cws (y w : Nat) : parseWeekIso (cws y w) = some (y, w) := by
  simp only [parseWeekIso, cws]
  rw [splitDashW_sep (natDigits y) (pad2 w) (dash_not_mem_natDigits y) (dash_not_mem_pad2 w)]
  simp [pyInt_natDigits, pyInt_pad2]

/-! ## Helper lemmas: decimal order vs lexicographic order -/

/-- Value of a list of digit values, most significant first. -/
def valN (l : List Nat) : Nat := l.foldl (fun a d => 10 * a + d) 0

theorem valN_foldl_init (l : List Nat) : ∀ a : Nat,
    l.foldl (fun x d => 10 * x + d) a = a * 10 ^ l.length + valN l := by
  induction l with
  | nil => intro a; simp [valN]
  | cons d t ih =>
    intro a
    simp only [List.foldl_cons, List.length_cons, valN]
    rw [ih (10 * a + d), ih (10 * 0 + d)]
    ring

theorem valN_cons (d : Nat) (t : List Nat) :
    valN (d :: t) = d * 10 ^ t.length + valN t := by
  simp only [valN, List.foldl_cons]
  rw [valN_foldl_init]
  simp only [valN]
  ring_nf

theorem valN_lt_pow (l : List Nat) (h : ∀ d ∈ l, d < 10) : valN l < 10 ^ l.length := by
  induction l with
  | nil => simp [valN]
  | cons d t ih =>
    rw [valN_cons]
    have hd : d < 10 := h d (List.mem_cons_self d t)
    have ht : valN t < 10 ^ t.length := ih fun x hx => h x (List.mem_cons_of_mem d hx)
    have : d * 10 ^ t.length + valN t < (d + 1) * 10 ^ t.length := by
      have hexp : (d + 1) * 10 ^ t.length = d * 10 ^ t.length + 10 ^ t.length := by ring
      omega
    calc d * 10 ^ t.length + valN t < (d + 1) * 10 ^ t.length := this
      _ ≤ 10 * 10 ^ t.length := Nat.mul_le_mul_right _ (by omega)
      _ = 10 ^ (t.length + 1) := by rw [pow_succ]; ring
      _ = 10 ^ (d :: t).length := by simp

theorem pyCharsLe_cons_same (c : Char) (t1 t2 : List Char) :
    pyCharsLe (c :: t1) (c :: t2) = pyCharsLe t1 t2 := by
  simp [pyCharsLe]

theorem pyCharsLe_digit_heads : ∀ (xs ys : List Nat) (r1 r2 : List Char),
    xs.length = ys.length → (∀ x ∈ xs, x < 10) → (∀ y ∈ ys, y < 10) →
    pyCharsLe (xs.map dc ++ r1) (ys.map dc ++ r2)
      = if valN xs < valN ys then true
        else if valN ys < valN xs then false
        else pyCharsLe r1 r2 := by
  intro xs
  induction xs with
  | nil =>
    intro ys r1 r2 hlen _ _
    have : ys = [] := List.length_eq_zero.mp hlen.symm
    subst this
    simp [valN]
  | cons x xt ih =>
    intro ys r1 r2 hlen hx hy
    cases ys with
    | nil => simp at hlen
    | cons y yt =>
      have hlen' : xt.length = yt.length := by simpa using hlen
      have hx0 : x < 10 := hx x (List.mem_cons_self x xt)
      have hy0 : y < 10 := hy y (List.mem_cons_self y yt)
      have hxt : ∀ d ∈ xt, d < 10 := fun d hd => hx d (List.mem_cons_of_mem x hd)
      have hyt : ∀ d ∈ yt, d < 10 := fun d hd => hy d (List.mem_cons_of_mem y hd)
      have hvl1 : valN xt < 10 ^ xt.length := valN_lt_pow xt hxt
      have hvl2 : valN yt < 10 ^ yt.length := valN_lt_pow yt hyt
      have hvx : valN (x :: xt) = x * 10 ^ xt.length + valN xt := valN_cons x xt
      have hvy : valN (y :: yt) = y * 10 ^ xt.length + valN yt := by
        rw [valN_cons, hlen']
      rcases Nat.lt_trichotomy x y with hlt | heq | hgt
      · have hcmp : (dc x).toNat < (dc y).toNat := by
          rw [dc_toNat x hx0, dc_toNat y hy0]
          omega
        have hval : valN (x :: xt) < valN (y :: yt) := by
          rw [hvx, hvy]
          have hexp : (x + 1) * 10 ^ xt.length = x * 10 ^ xt.length + 10 ^ xt.length := by
            ring
          have h2 : (x + 1) * 10 ^ xt.length ≤ y * 10 ^ xt.length :=
            Nat.mul_le_mul_right _ (by omega)
          omega
        simp only [List.map_cons, List.cons_append, pyCharsLe, hcmp, if_true, if_pos hval]
      · subst heq
        have hstep : pyCharsLe (dc x :: (xt.map dc ++ r1)) (dc x :: (yt.map dc ++ r2))
            = pyCharsLe (xt.map dc ++ r1) (yt.map dc ++ r2) := pyCharsLe_cons_same _ _ _
        simp only [List.map_cons, List.cons_append]
        rw [hstep, ih yt r1 r2 hlen' hxt hyt]
        have e1 : (valN (x :: xt) < valN (x :: yt)) = (valN xt < valN yt) := by
          rw [hvx, hvy]
          exact propext (by omega)
        have e2 : (valN (x :: yt) < valN (x :: xt)) = (valN yt < valN xt) := by
          rw [hvx, hvy]
          exact propext (by omega)
        simp only [e1, e2]
      · have hcmp1 : ¬ (dc x).toNat < (dc y).toNat := by
          rw [dc_toNat x hx0, dc_toNat y hy0]
          omega
        have hcmp2 : (dc y).toNat < (dc x).toNat := by
          rw [dc_toNat x hx0, dc_toNat y hy0]
          omega
        have hval : valN (y :: yt) < valN (x :: xt) := by
          rw [hvx, hvy]
          have hvl2x : valN yt < 10 ^ xt.length := by
            rw [hlen']
            exact hvl2
          have hexp : (y + 1) * 10 ^ xt.length = y * 10 ^ xt.length + 10 ^ xt.length := by
            ring
          have h2 : (y + 1) * 10 ^ xt.length ≤ x * 10 ^ xt.length :=
            Nat.mul_le_mul_right _ (by omega)
          omega
        have hval2 : ¬ valN (x :: xt) < valN (y :: yt) := by omega
        simp only [List.map_cons, List.cons_append, pyCharsLe, hcmp1, if_false, hcmp2, if_true,
          if_neg hval2, if_pos hval]

/-- Explicit four-digit form of `natDigits` on 1000–9999. -/
theorem natDigits4 (y : Nat) (h1 : 1000 ≤ y) (h2 : y ≤ 9999) :
    natDigits y = [y / 1000, y / 100 % 10, y / 10 % 10, y % 10].map dc := by
  have d10 : y / 10 / 10 = y / 100 := by
    rw [Nat.div_div_eq_div_mul]
  have d100 : y / 10 / 10 / 10 = y / 1000 := by
    rw [Nat.div_div_eq_div_mul, Nat.div_div_eq_div_mul]
  have e1 : natDigits y = natDigits (y / 10) ++ [dc (y % 10)] := by
    rw [natDigits_eq]
    simp [show ¬ y < 10 by omega]
  have e2 : natDigits (y / 10) = natDigits (y / 10 / 10) ++ [dc (y / 10 % 10)] := by
    rw [natDigits_eq]
    simp [show ¬ y / 10 < 10 by omega]
  have e3 : natDigits (y / 10 / 10) = natDigits (y / 10 / 10 / 10) ++ [dc (y / 10 / 10 % 10)] := by
    rw [natDigits_eq]
    simp [show ¬ y / 10 / 10 < 10 by omega]
  have e4 : natDigits (y / 10 / 10 / 10) = [dc (y / 10 / 10 / 10)] := by
    rw [natDigits_eq]
    simp [show y / 10 / 10 / 10 < 10 by omega]
  rw [e1, e2, e3, e4, d100]
  have : y / 10 / 10 % 10 = y / 100 % 10 := by rw [d10]
  rw [this]
  simp

/-- Explicit two-digit form of `pad2` on 0–99. -/
theorem pad2_eq (w : Nat) (_hw : w ≤ 99) : pad2 w = [w / 10, w % 10].map dc := by
  by_cases h : w < 10
  · have e : natDigits w = [dc w] := by
      rw [natDigits_eq]
      simp [h]
    have h1 : w / 10 = 0 := by omega
    have h2 : w % 10 = w := by omega
    have h0 : ('0' : Char) = dc 0 := by decide
    simp only [pad2, e, h1, h2, List.map_cons, List.map_nil, List.length_singleton]
    norm_num
    exact h0
  · have e : natDigits w = [dc (w / 10), dc (w % 10)] := by
      have e1 : natDigits w = natDigits (w / 10) ++ [dc (w % 10)] := by
        rw [natDigits_eq]
        simp [h]
      have e2 : natDigits (w / 10) = [dc (w / 10)] := by
        rw [natDigits_eq]
        simp [show w / 10 < 10 by omega]
      rw [e1, e2]
      rfl
    simp [pad2, e]

theorem valN_year (y : Nat) : valN [y / 1000, y / 100 % 10, y / 10 % 10, y % 10] = y := by
  simp only [valN, List.foldl_cons, List.foldl_nil]
  omega

theorem valN_week (w : Nat) (_hw : w ≤ 99) : valN [w / 10, w % 10] = w := by
  simp only [valN, List.foldl_cons, List.foldl_nil]
  omega

/-- Python string order on canonical week strings is the lexicographic
order on (year, week), for 4-digit years and 2-digit weeks. -/
theorem pyStrLe_cws (y w y2 w2 : Nat) (hy1 : 1000 ≤ y) (hy2 : y ≤ 9999)
    (hz1 : 1000 ≤ y2) (hz2 : y2 ≤ 9999) (hw : w ≤ 99) (hw2 : w2 ≤ 99) :
    pyStrLe (cws y w) (cws y2 w2) = decide (y < y2 ∨ (y = y2 ∧ w ≤ w2)) := by
  have hdata : (cws y w).data = natDigits y ++ '-' :: 'W' :: pad2 w := rfl
  have hdata2 : (cws y2 w2).data = natDigits y2 ++ '-' :: 'W' :: pad2 w2 := rfl
  simp only [pyStrLe, hdata, hdata2]
  rw [natDigits4 y hy1 hy2, natDigits4 y2 hz1 hz2]
  rw [pyCharsLe_digit_heads _ _ _ _ (by simp) (by intro x hx; simp at hx; omega)
    (by intro x hx; simp at hx; omega)]
  rw [valN_year, valN_year]
  rcases Nat.lt_trichotomy y y2 with hlt | heq | hgt
  · rw [if_pos hlt]
    exact (decide_eq_true (Or.inl hlt)).symm
  · subst heq
    rw [if_neg (lt_irrefl _), if_neg (lt_irrefl _)]
    rw [pyCharsLe_cons_same, pyCharsLe_cons_same]
    rw [pad2_eq w hw, pad2_eq w2 hw2]
    have hr1 : ([w / 10, w % 10].map dc : List Char)
        = [w / 10, w % 10].map dc ++ [] := by simp
    have hr2 : ([w2 / 10, w2 % 10].map dc : List Char)
        = [w2 / 10, w2 % 10].map dc ++ [] := by simp
    rw [hr1, hr2, pyCharsLe_digit_heads _ _ _ _ (by simp) (by intro x hx; simp at hx; omega)
      (by intro x hx; simp at hx; omega)]
    rw [valN_week w hw, valN_week w2 hw2]
    rcases Nat.lt_trichotomy w w2 with h1 | h1 | h1
    · rw [if_pos h1]
      exact (decide_eq_true (Or.inr ⟨rfl, Nat.le_of_lt h1⟩)).symm
    · subst h1
      rw [if_neg (lt_irrefl _), if_neg (lt_irrefl _)]
      have hnil : pyCharsLe [] [] = true := rfl
      rw [hnil]
      exact (decide_eq_true (Or.inr ⟨rfl, le_refl w⟩)).symm
    · rw [if_neg (by omega), if_pos h1]
      symm
      rw [decide_eq_false_iff_not]
      rintro (h | h)
      · exact absurd h (lt_irrefl _)
      · omega
  · rw [if_neg (by omega), if_pos hgt]
    exact (decide_eq_false (by omega)).symm

/-- The canonical week string passes the format validator. -/
theorem validate_cws (y w : Nat) (hy1 : 1000 ≤ y) (hy2 : y ≤ 9999) (hw : w ≤ 99) :
    validate_iso_week_format (cws y w) = true := by
  have hdata : (cws y w).data = natDigits y ++ '-' :: 'W' :: pad2 w := rfl
  rw [validate_iso_week_format, hdata, natDigits4 y hy1 hy2, pad2_eq w hw]
  simp only [List.map_cons, List.map_nil, List.cons_append, List.nil_append]
  simp only [dc_isDigit (y / 1000) (by omega), dc_isDigit (y / 100 % 10) (by omega),
    dc_isDigit (y / 10 % 10) (by omega), dc_isDigit (y % 10) (by omega),
    dc_isDigit (w / 10) (by omega), dc_isDigit (w % 10) (by omega), Bool.and_self,
    Bool.and_true, Bool.true_and]

/-! ## Helper lemmas: the calendar arithmetic -/

/-- Any ordinal within the first 365 days of year `y` has year `y` under
CPython's year extraction. -/
theorem yearOfOrdinal_jan1_add (y d : Int) (_hy : 1 ≤ y) (hd0 : 0 ≤ d) (hd : d ≤ 364) :
    yearOfOrdinal (jan1Ordinal y + d) = y := by
  simp only [yearOfOrdinal, jan1Ordinal]
  have h1 : (1 + 365 * (y - 1) + (y - 1) / 4 - (y - 1) / 100 + (y - 1) / 400 + d - 1) / 146097
      = (y - 1) / 400 := by
    omega
  have h2 : (1 + 365 * (y - 1) + (y - 1) / 4 - (y - 1) / 100 + (y - 1) / 400 + d - 1) % 146097
      = 365 * (y - 1) + (y - 1) / 4 - (y - 1) / 100 + (y - 1) / 400 + d
        - 146097 * ((y - 1) / 400) := by
    omega
  have h3 : (1 + 365 * (y - 1) + (y - 1) / 4 - (y - 1) / 100 + (y - 1) / 400 + d - 1) % 146097
      / 36524 = (y - 1) / 100 - 4 * ((y - 1) / 400) := by
    omega
  have h4 : (1 + 365 * (y - 1) + (y - 1) / 4 - (y - 1) / 100 + (y - 1) / 400 + d - 1) % 146097
      % 36524
      = 365 * (y - 1) + (y - 1) / 4 + d - 36525 * ((y - 1) / 100) := by
    omega
  have h5 : (1 + 365 * (y - 1) + (y - 1) / 4 - (y - 1) / 100 + (y - 1) / 400 + d - 1) % 146097
      % 36524 / 1461 = (y - 1) / 4 - 25 * ((y - 1) / 100) := by
    omega
  have h6 : (1 + 365 * (y - 1) + (y - 1) / 4 - (y - 1) / 100 + (y - 1) / 400 + d - 1) % 146097
      % 36524 % 1461
      = 365 * (y - 1) - 1460 * ((y - 1) / 4) + d := by
    omega
  have h7 : (1 + 365 * (y - 1) + (y - 1) / 4 - (y - 1) / 100 + (y - 1) / 400 + d - 1) % 146097
      % 36524 % 1461 / 365 = (y - 1) - 4 * ((y - 1) / 4) := by
    omega
  split
  · omega
  · omega

/-- `isocalendar` year/week of the Monday starting week `w` of a year
whose January 1st is a Monday, for `w` in 1–52. -/
theorem isocalendarYW_monday (y w : Nat) (hy : 1 ≤ y)
    (hmon : ordWeekday (jan1Ordinal (y : Int)) = 0) (hw1 : 1 ≤ w) (hw2 : w ≤ 52) :
    isocalendarYW (jan1Ordinal (y : Int) + 7 * ((w : Int) - 1)) = ((y : Int), (w : Int)) := by
  have hmon' : (jan1Ordinal (y : Int) + 6) % 7 = 0 := by
    simpa [ordWeekday] using hmon
  have hyear : yearOfOrdinal (jan1Ordinal (y : Int) + 7 * ((w : Int) - 1)) = (y : Int) :=
    yearOfOrdinal_jan1_add (y : Int) (7 * ((w : Int) - 1)) (by exact_mod_cast hy)
      (by omega) (by omega)
  simp only [isocalendarYW, isoweek1monday, hyear, hmon']
  have hif : ¬ ((3 : Int) < 0) := by norm_num
  rw [if_neg hif]
  have hsub : jan1Ordinal (y : Int) + 7 * ((w : Int) - 1) - (jan1Ordinal (y : Int) - 0)
      = 7 * ((w : Int) - 1) := by ring
  rw [hsub]
  have hdiv : (7 * ((w : Int) - 1)) / 7 = (w : Int) - 1 :=
    Int.mul_ediv_cancel_left _ (by norm_num)
  rw [hdiv]
  have hnneg : ¬ ((w : Int) - 1 < 0) := by omega
  rw [if_neg hnneg]
  have hlt52 : ¬ ((52 : Int) ≤ (w : Int) - 1) := by omega
  rw [if_neg hlt52]
  have : (w : Int) - 1 + 1 = (w : Int) := by ring
  rw [this]

/-- `intDigits` of a cast natural number is `natDigits`. -/
theorem intDigits_natCast (n : Nat) : intDigits (n : Int) = natDigits n := by
  simp [intDigits, show ¬ ((n : Int) < 0) by omega]

/-- The numeric week-to-range conversion on a Monday-starting year: the
start of week `w` is January 1st plus `7 * (w - 1)` days. -/
theorem isoWeekToDateRangeNum_monday (y w : Nat) (hy1 : 1000 ≤ y) (hy2 : y ≤ 9999)
    (hmon : ordWeekday (jan1Ordinal (y : Int)) = 0) (hw2 : w ≤ 52) :
    isoWeekToDateRangeNum y w
      = some (⟨jan1Ordinal (y : Int) + 7 * ((w : Int) - 1), 0⟩,
              ⟨jan1Ordinal (y : Int) + 7 * ((w : Int) - 1) + 6, 86399⟩) := by
  have hmon' : (jan1Ordinal (y : Int) + 6) % 7 = 0 := by
    simpa [ordWeekday] using hmon
  have hyr : ¬ (y < 1 ∨ 9999 < y) := by omega
  simp only [isoWeekToDateRangeNum, hyr, if_false, ordWeekday, hmon']
  have h70 : ((7 : Int) - 0) % 7 = 0 := by decide
  rw [h70]
  have hif : ¬ ((3 : Int) < 0) := by norm_num
  rw [if_neg hif]
  have hjdef : jan1Ordinal (y : Int)
      = 1 + 365 * ((y : Int) - 1) + ((y : Int) - 1) / 4 - ((y : Int) - 1) / 100
        + ((y : Int) - 1) / 400 := rfl
  have hguard : ¬ ((jan1Ordinal (y : Int) + (0 + 0) + 7 * ((w : Int) - 1) < 1)
      ∨ (maxOrdinal < jan1Ordinal (y : Int) + (0 + 0) + 7 * ((w : Int) - 1) + 6)) := by
    simp only [maxOrdinal]
    omega
  rw [if_neg hguard]
  norm_num

/-- The full round-trip on the numeric core, for Monday-starting years
and weeks 1–52. -/
theorem dateToIsoWeek_weekStart (y w : Nat) (hy1 : 1000 ≤ y) (hy2 : y ≤ 9999)
    (hmon : ordWeekday (jan1Ordinal (y : Int)) = 0) (hw1 : 1 ≤ w) (hw2 : w ≤ 52) :
    date_to_iso_week ⟨jan1Ordinal (y : Int) + 7 * ((w : Int) - 1), 0⟩ = cws y w := by
  simp only [date_to_iso_week,
    isocalendarYW_monday y w (by omega) hmon hw1 hw2]
  simp only [cws, intDigits_natCast]
  have : ((w : Int)).toNat = w := by omega
  rw [this]

/-! ## Claim C1 -/

/-- C1 (amended): for week strings `YYYY-Www` accepted by
`validate_iso_week_format` whose year is 1000–9999 and starts on a
Monday and whose week number is 01–52, applying `date_to_iso_week` to
the start datetime returned by `iso_week_to_date_range` yields the week
string again. (As originally stated — for every accepted week string —
the round trip fails; see the counterexample.) -/
theorem C1_roundtrip_monday_years (y w : Nat) (hy1 : 1000 ≤ y) (hy2 : y ≤ 9999)
    (hmon : ordWeekday (jan1Ordinal (y : Int)) = 0) (hw1 : 1 ≤ w) (hw2 : w ≤ 52) :
    validate_iso_week_format (cws y w) = true ∧
    (iso_week_to_date_range (cws y w)).map (fun p => date_to_iso_week p.1)
      = some (cws y w) := by
  refine ⟨validate_cws y w hy1 hy2 (by omega), ?_⟩
  simp only [iso_week_to_date_range, parseWeekIso_cws, Option.some_bind]
  rw [isoWeekToDateRangeNum_monday y w hy1 hy2 hmon hw2]
  simp only [Option.map_some']
  rw [dateToIsoWeek_weekStart y w hy1 hy2 hmon hw1 hw2]

/-- C1 witness: the round trip holds concretely for 2024-W05 (2024
begins on a Monday). -/
theorem C1_roundtrip_witness :
    validate_iso_week_format (cws 2024 5) = true ∧
    (iso_week_to_date_range (cws 2024 5)).map (fun p => date_to_iso_week p.1)
      = some (cws 2024 5) :=
  C1_roundtrip_monday_years 2024 5 (by norm_num) (by norm_num) (by decide)
    (by norm_num) (by norm_num)

/-- C1 counterexample: "2025-W01" is accepted by the validator, but the
round trip produces "2025-W02" (2025 does not begin on a Monday, and the
code's "first Monday" computation lands one week late). -/
theorem C1_counterexample :
    validate_iso_week_format "2025-W01" = true ∧
    (iso_week_to_date_range "2025-W01").map (fun p => date_to_iso_week p.1)
      = some "2025-W02" ∧
    some "2025-W02" ≠ some "2025-W01" := by
  refine ⟨by decide, by decide, by decide⟩

/-! ## Claim C4 -/

/-- The week-successor function the spec describes: week `ww + 1` within
the year, rolling `YYYY-W52` over to `(YYYY+1)-W01`. -/
def specSucc (p : Nat × Nat) : Nat × Nat := if p.2 = 52 then (p.1 + 1, 1) else (p.1, p.2 + 1)

/-- The inclusive successor chain of length `n + 1` starting at `p`. -/
def specChain : Nat → Nat × Nat → List (Nat × Nat)
  | 0, p => [p]
  | n + 1, p => p :: specChain n (specSucc p)

/-- Linear index of a week pair under the wrap-at-52 convention. -/
def weekIdx (p : Nat × Nat) : Nat := 52 * p.1 + (p.2 - 1)

theorem nextWeekStr_cws (y w : Nat) :
    nextWeekStr (cws y w) = some (cws (specSucc (y, w)).1 (specSucc (y, w)).2) := by
  simp only [nextWeekStr, parseWeekIso_cws, Option.map_some']
  by_cases h : w = 52
  · subst h
    have hp : pad2 1 = ['0', '1'] := by decide
    simp [specSucc, cws, hp]
  · simp [h, specSucc, cws]

theorem weekRangeLoop_step_true (fuel : Nat) (cur endW : String) (acc : List String)
    (h : pyStrLe cur endW = true) (next : String) (hn : nextWeekStr cur = some next) :
    weekRangeLoop (fuel + 1) cur endW acc = weekRangeLoop fuel next endW (acc ++ [cur]) := by
  simp only [weekRangeLoop, h, if_true, hn]

theorem weekRangeLoop_step_false (fuel : Nat) (cur endW : String) (acc : List String)
    (h : pyStrLe cur endW = false) :
    weekRangeLoop (fuel + 1) cur endW acc = some acc := by
  simp only [weekRangeLoop, h, Bool.false_eq_true, if_false]

theorem weekRangeLoop_cws : ∀ (n y w fuel : Nat) (acc : List String) (y2 w2 : Nat),
    1000 ≤ y → 1 ≤ w → w ≤ 52 → y2 ≤ 9999 → 1 ≤ w2 → w2 ≤ 52 →
    ¬ (y2 = 9999 ∧ w2 = 52) →
    weekIdx (y, w) + n = weekIdx (y2, w2) →
    n + 2 ≤ fuel →
    weekRangeLoop fuel (cws y w) (cws y2 w2) acc
      = some (acc ++ (specChain n (y, w)).map (fun p => cws p.1 p.2)) := by
  intro n
  induction n with
  | zero =>
    intro y w fuel acc y2 w2 hy hw1 hw2 hz2 hv1 hv2 hmax hidx hfuel
    have hyy : y = y2 ∧ w = w2 := by
      simp only [weekIdx] at hidx
      omega
    obtain ⟨rfl, rfl⟩ := hyy
    obtain ⟨g, rfl⟩ : ∃ g, fuel = g + 2 := ⟨fuel - 2, by omega⟩
    have hy2' : y ≤ 9999 := hz2
    have hguard1 : pyStrLe (cws y w) (cws y w) = true := by
      rw [pyStrLe_cws y w y w hy hy2' hy hy2' (by omega) (by omega)]
      exact decide_eq_true (Or.inr ⟨rfl, le_refl w⟩)
    have hsucc1 : 1000 ≤ (specSucc (y, w)).1 := by
      simp only [specSucc]
      split <;> simp <;> omega
    have hsucc9999 : (specSucc (y, w)).1 ≤ 9999 := by
      simp only [specSucc]
      split
      · simp
        omega
      · simp
        omega
    have hsuccw : (specSucc (y, w)).2 ≤ 99 := by
      simp only [specSucc]
      split
      · simp
      · simp
        omega
    have hguard2 : pyStrLe (cws (specSucc (y, w)).1 (specSucc (y, w)).2) (cws y w) = false := by
      rw [pyStrLe_cws _ _ y w hsucc1 hsucc9999 hy hy2' hsuccw (by omega)]
      refine decide_eq_false ?_
      rintro (h | ⟨h1, h2⟩)
      · simp only [specSucc] at h
        split at h <;> simp_all
      · simp only [specSucc] at h1 h2
        split at h1 <;> simp_all
    rw [weekRangeLoop_step_true (g + 1) _ _ acc hguard1 _ (nextWeekStr_cws y w)]
    rw [weekRangeLoop_step_false g _ _ _ hguard2]
    simp [specChain]
  | succ k ih =>
    intro y w fuel acc y2 w2 hy hw1 hw2 hz2 hv1 hv2 hmax hidx hfuel
    have hyle : y ≤ y2 := by
      simp only [weekIdx] at hidx
      omega
    have hy9999 : y ≤ 9999 := le_trans hyle hz2
    have hz1000 : 1000 ≤ y2 := le_trans hy hyle
    obtain ⟨g, rfl⟩ : ∃ g, fuel = g + 1 := ⟨fuel - 1, by omega⟩
    have hguard : pyStrLe (cws y w) (cws y2 w2) = true := by
      rw [pyStrLe_cws y w y2 w2 hy hy9999 hz1000 hz2 (by omega) (by omega)]
      refine decide_eq_true ?_
      simp only [weekIdx] at hidx
      omega
    rw [weekRangeLoop_step_true g _ _ acc hguard _ (nextWeekStr_cws y w)]
    have hidx' : weekIdx (specSucc (y, w)) = weekIdx (y, w) + 1 := by
      simp only [specSucc, weekIdx]
      split
      · simp
        omega
      · simp
        omega
    have hrec := ih (specSucc (y, w)).1 (specSucc (y, w)).2 g (acc ++ [cws y w]) y2 w2
      (by simp only [specSucc]; split <;> simp <;> omega)
      (by simp only [specSucc]; split <;> simp <;> omega)
      (by simp only [specSucc]; split <;> simp <;> omega)
      hz2 hv1 hv2 hmax
      (by rw [show ((specSucc (y, w)).1, (specSucc (y, w)).2) = specSucc (y, w) from rfl,
            hidx']
          omega)
      (by omega)
    rw [hrec]
    simp only [specChain, List.map_cons, List.append_assoc, List.singleton_append]

/-- C4 (amended): for validator-accepted week strings `start ≤ end` whose
years are 1000–9999 and week numbers 01–52, with `end ≠ 9999-W52`,
`get_week_range` (given fuel at least the chain length plus two)
terminates and returns exactly the inclusive successor chain from start
to end, where the successor of week ww (ww ≠ 52) is ww+1 within the year
and the successor of `YYYY-W52` is `(YYYY+1)-W01`. (As originally stated
— for all accepted `start ≤ end` — the returned list is not that chain;
see the counterexample, and the loop does not even terminate for
`end = 9999-W52`.) -/
theorem C4_week_range_chain (y1 w1 y2 w2 fuel : Nat)
    (h11 : 1000 ≤ y1) (h12 : 1 ≤ w1) (h13 : w1 ≤ 52)
    (h22 : y2 ≤ 9999) (h23 : 1 ≤ w2) (h24 : w2 ≤ 52)
    (hmax : ¬ (y2 = 9999 ∧ w2 = 52))
    (hord : weekIdx (y1, w1) ≤ weekIdx (y2, w2))
    (hfuel : weekIdx (y2, w2) - weekIdx (y1, w1) + 2 ≤ fuel) :
    pyStrLe (cws y1 w1) (cws y2 w2) = true ∧
    get_week_range fuel (cws y1 w1) (cws y2 w2)
      = some (Except.ok ((specChain (weekIdx (y2, w2) - weekIdx (y1, w1)) (y1, w1)).map
          (fun p => cws p.1 p.2))) := by
  have hy1le : y1 ≤ y2 := by
    simp only [weekIdx] at hord
    omega
  have h14 : y1 ≤ 9999 := le_trans hy1le h22
  have h21 : 1000 ≤ y2 := le_trans h11 hy1le
  have hle : pyStrLe (cws y1 w1) (cws y2 w2) = true := by
    rw [pyStrLe_cws y1 w1 y2 w2 h11 h14 h21 h22 (by omega) (by omega)]
    refine decide_eq_true ?_
    simp only [weekIdx] at hord
    omega
  refine ⟨hle, ?_⟩
  have hva : validate_iso_week_format (cws y1 w1) = true := validate_cws y1 w1 h11 h14 (by omega)
  have hvb : validate_iso_week_format (cws y2 w2) = true := validate_cws y2 w2 h21 h22 (by omega)
  simp only [get_week_range, hva, hvb, Bool.and_self, not_true_eq_false, if_false]
  rw [weekRangeLoop_cws (weekIdx (y2, w2) - weekIdx (y1, w1)) y1 w1 fuel [] y2 w2
    h11 h12 h13 h22 h23 h24 hmax (by omega) hfuel]
  simp

/-- C4 witness: the five-step chain from 2024-W50 to 2025-W03, with the
year rollover after week 52. -/
theorem C4_week_range_witness :
    get_week_range 10 (cws 2024 50) (cws 2025 3)
      = some (Except.ok [cws 2024 50, cws 2024 51, cws 2024 52, cws 2025 1,
          cws 2025 2, cws 2025 3]) := by
  have h := (C4_week_range_chain 2024 50 2025 3 10 (by norm_num) (by norm_num) (by norm_num)
    (by norm_num) (by norm_num) (by norm_num) (by simp) (by decide) (by decide)).2
  rw [h]
  rfl

set_option maxRecDepth 4000 in
/-- C4 counterexample: "0500-W01" and "0500-W03" are both accepted by the
validator and start ≤ end holds (string order), but `get_week_range`
returns only ["0500-W01"] instead of the three-week inclusive chain: the
loop re-renders the year without its leading zero, and "500-W02" compares
greater than "0500-W03". -/
theorem C4_counterexample :
    validate_iso_week_format "0500-W01" = true ∧
    validate_iso_week_format "0500-W03" = true ∧
    pyStrLe "0500-W01" "0500-W03" = true ∧
    get_week_range 10 "0500-W01" "0500-W03" = some (Except.ok ["0500-W01"]) ∧
    (["0500-W01"] : List String) ≠ ["0500-W01", "0500-W02", "0500-W03"] := by
  refine ⟨by decide, by decide, by decide, by rfl, by decide⟩

/-! ## Concrete fixtures for witnesses and counterexamples -/

/-- Sample admin ObjectId. -/
def oidA : String := "aaaaaaaaaaaaaaaaaaaaaaaa"

/-- Sample employee ObjectId. -/
def oidB : String := "bbbbbbbbbbbbbbbbbbbbbbbb"

/-- Second sample employee ObjectId. -/
def oidC : String := "cccccccccccccccccccccccc"

/-- Inactive employee ObjectId. -/
def oidD : String := "dddddddddddddddddddddddd"

/-- Sample report ObjectId. -/
def oidR1 : String := "111111111111111111111111"

/-- Sample message ObjectId. -/
def oidM1 : String := "222222222222222222222222"

/-- Spare fresh ObjectId for inserts. -/
def oidN1 : String := "333333333333333333333333"

/-- Sample admin user. -/
def adminA : UserR :=
  { oid := oidA, email := "admin@example.com", name := "Admin A", role := "admin",
    status := "active" }

/-- Sample active employee. -/
def empB : UserR :=
  { oid := oidB, email := "b@example.com", name := "Emp B", role := "employee",
    status := "active" }

/-- Second active employee. -/
def empC : UserR :=
  { oid := oidC, email := "c@example.com", name := "Emp C", role := "employee",
    status := "active" }

/-- Inactive employee. -/
def empD : UserR :=
  { oid := oidD, email := "d@example.com", name := "Emp D", role := "employee",
    status := "inactive" }

/-- A sample task worth 3 hours. -/
def taskT1 : TaskItemR := { title := "T", hours := 3 }

/-- A week-based report owned by `empB`. -/
def reportB : ReportR :=
  { oid := oidR1, user_id := oidB, week_iso := some "2024-W01", tasks := some [taskT1],
    total_hours := some 3, status := "submitted", created_at := 0, updated_at := 0 }

/-! ## Claim C10 -/

/-- C10: for every admin actor, calling `delete_user` with the actor's
own id yields an error and leaves the store unchanged — every branch
reachable with a target id equal to the actor's id (invalid id, id not
found, or the explicit self-deletion guard) raises before any delete
runs. -/
theorem C10_self_delete_rejected (s : Store) (cu : UserR) (user_id : String)
    (hself : oidOf user_id = cu.oid) :
    (∃ e, (delete_user s cu user_id).1 = Except.error e) ∧
    (delete_user s cu user_id).2 = s := by
  simp only [delete_user]
  by_cases hv : isValidOid user_id
  · simp only [hv, not_true_eq_false, if_false]
    cases hfind : s.users.find? (fun u => u.oid == oidOf user_id) with
    | none =>
      simp only [hfind]
      exact ⟨⟨_, rfl⟩, trivial⟩
    | some u =>
      have hu := List.find?_some hfind
      have huoid : u.oid = cu.oid := by
        rw [← hself]
        simpa using hu
      have hub : (u.oid == cu.oid) = true := by simp [huoid]
      simp only [hfind, hub, if_true]
      exact ⟨⟨_, rfl⟩, trivial⟩
  · have hvb : isValidOid user_id = false := by simpa using hv
    simp only [hvb, Bool.false_eq_true, not_false_eq_true, if_true]
    exact ⟨⟨_, rfl⟩, trivial⟩

/-- A sample store: one admin, one employee, one report. -/
def storeAB : Store :=
  { users := [adminA, empB], reports := [reportB], comments := [], messages := [] }

/-- C10 witness: the admin tries to delete their own account. -/
theorem C10_self_delete_witness :
    (∃ e, (delete_user storeAB adminA oidA).1 = Except.error e) ∧
    (delete_user storeAB adminA oidA).2 = storeAB :=
  C10_self_delete_rejected storeAB adminA oidA (by decide)

/-! ## Claim C8 -/

/-- No element of `eraseP (oid = k)` has oid `k` when the oids are
distinct. -/
theorem eraseP_oid_not_mem (k : String) : ∀ l : List UserR,
    (l.map (fun x => x.oid)).Nodup →
    ∀ v ∈ l.eraseP (fun x => x.oid == k), v.oid ≠ k := by
  intro l
  induction l with
  | nil => simp
  | cons x xs ih =>
    intro hnd v hv
    by_cases hx : (x.oid == k) = true
    · rw [List.eraseP_cons_of_pos (p := fun z : UserR => z.oid == k) hx] at hv
      have hxk : x.oid = k := by simpa using hx
      have hnx : x.oid ∉ xs.map (fun z => z.oid) := by
        simp only [List.map_cons, List.nodup_cons] at hnd
        exact hnd.1
      intro hvk
      apply hnx
      rw [hxk, ← hvk]
      exact List.mem_map_of_mem _ hv
    · rw [List.eraseP_cons_of_neg (p := fun z : UserR => z.oid == k) hx] at hv
      rcases List.mem_cons.mp hv with rfl | hv2
      · simpa using hx
      · have hnd' : (xs.map (fun z => z.oid)).Nodup := by
          simp only [List.map_cons, List.nodup_cons] at hnd
          exact hnd.2
        exact ih hnd' v hv2

/-- C8: deleting an existing user `U` (by a different admin) leaves zero
reports owned by `U`, zero comments authored by `U`, zero messages sent
or received by `U`, and no user document with `U`'s id. -/
theorem C8_delete_user_cascade (s : Store) (cu : UserR) (user_id : String) (u : UserR)
    (hv : isValidOid user_id = true)
    (hfind : s.users.find? (fun x => x.oid == oidOf user_id) = some u)
    (hneq : ¬ u.oid = cu.oid)
    (hnd : (s.users.map (fun x => x.oid)).Nodup) :
    (delete_user s cu user_id).1 = Except.ok "Utilisateur supprimé avec succès" ∧
    (delete_user s cu user_id).2.reports.countP (fun r => r.user_id == oidOf user_id) = 0 ∧
    (delete_user s cu user_id).2.comments.countP (fun c => c.admin_id == oidOf user_id) = 0 ∧
    (delete_user s cu user_id).2.messages.countP
      (fun m => m.sender_id == oidOf user_id || m.receiver_id == oidOf user_id) = 0 ∧
    ∀ v ∈ (delete_user s cu user_id).2.users, v.oid ≠ oidOf user_id := by
  have hneqb : (u.oid == cu.oid) = false := by
    simpa using hneq
  simp only [delete_user, hv, not_true_eq_false, if_false]
  rw [hfind]
  simp only [hneqb, Bool.false_eq_true, if_false]
  refine ⟨by trivial, ?_, ?_, ?_, ?_⟩
  · rw [List.countP_eq_zero]
    intro a ha
    have := List.of_mem_filter ha
    simpa using this
  · rw [List.countP_eq_zero]
    intro a ha
    have := List.of_mem_filter ha
    simpa using this
  · rw [List.countP_eq_zero]
    intro a ha
    have := List.of_mem_filter ha
    simpa using this
  · exact eraseP_oid_not_mem (oidOf user_id) s.users hnd

/-- C8 witness: deleting employee B cascades over the concrete store. -/
theorem C8_delete_user_witness :
    (delete_user storeAB adminA oidB).1 = Except.ok "Utilisateur supprimé avec succès" ∧
    (delete_user storeAB adminA oidB).2.reports.countP
      (fun r => r.user_id == oidOf oidB) = 0 ∧
    (delete_user storeAB adminA oidB).2.comments.countP
      (fun c => c.admin_id == oidOf oidB) = 0 ∧
    (delete_user storeAB adminA oidB).2.messages.countP
      (fun m => m.sender_id == oidOf oidB || m.receiver_id == oidOf oidB) = 0 ∧
    ∀ v ∈ (delete_user storeAB adminA oidB).2.users, v.oid ≠ oidOf oidB :=
  C8_delete_user_cascade storeAB adminA oidB empB (by decide) (by decide) (by decide)
    (by decide)

/-! ## Claim C3 -/

/-- C3 (amended): an employee reading another employee's existing report
by id receives a 403 Forbidden authorization error — not a 404 — so
existence of the report is leaked to non-owners. (As originally stated
— not-found rather than forbidden — the claim fails; see the
counterexample.) -/
theorem C3_get_report_forbidden (s : Store) (cu : UserR) (report_id : String) (r : ReportR)
    (hrole : cu.role = "employee")
    (hv : isValidOid report_id = true)
    (hfind : s.reports.find? (fun x => x.oid == oidOf report_id) = some r)
    (hown : ¬ r.user_id = cu.oid) :
    get_report s cu report_id = Except.error ⟨403, "Accès non autorisé à ce rapport"⟩ := by
  simp only [get_report, hv, not_true_eq_false, if_false]
  rw [hfind]
  have hrb : (cu.role == "employee") = true := by
    simp [hrole]
  have hob : (r.user_id != cu.oid) = true := by
    simpa using hown
  simp only [hrb, hob, Bool.and_self, if_true]

/-- C3 witness: employee C reads employee B's report and gets 403. -/
theorem C3_get_report_witness :
    get_report { users := [empB, empC], reports := [reportB], comments := [], messages := [] }
      empC oidR1 = Except.error ⟨403, "Accès non autorisé à ce rapport"⟩ :=
  C3_get_report_forbidden _ empC oidR1 reportB (by decide) (by decide) (by decide) (by decide)

/-- C3 counterexample: the error an employee gets on another employee's
report is 403 with the authorization detail, not the 404 not-found error
the claim promises. -/
theorem C3_counterexample :
    get_report { users := [empB, empC], reports := [reportB], comments := [], messages := [] }
      empC oidR1 = Except.error ⟨403, "Accès non autorisé à ce rapport"⟩ ∧
    get_report { users := [empB, empC], reports := [reportB], comments := [], messages := [] }
      empC oidR1 ≠ Except.error ⟨404, "Rapport non trouvé"⟩ := by
  refine ⟨by decide, by decide⟩

/-! ## Claim C2 -/

/-- Strengthening a successful `find?` with a second test the found
element passes. -/
theorem find?_and_of_find? (p q : α → Bool) (l : List α) (a : α)
    (h : l.find? p = some a) (hq : q a = true) :
    l.find? (fun x => p x && q x) = some a := by
  induction l with
  | nil => simp at h
  | cons x xs ih =>
    by_cases hx : p x = true
    · rw [List.find?_cons_of_pos _ hx] at h
      have hax : x = a := by simpa using h
      subst hax
      exact List.find?_cons_of_pos _ (by simp [hx, hq])
    · rw [List.find?_cons_of_neg _ hx] at h
      rw [List.find?_cons_of_neg _ (by simp [hx])]
      exact ih h

/-- `find?` after `updateFirst` with the same predicate returns the
rewritten element, provided the rewrite preserves the predicate. -/
theorem find?_updateFirst (p : α → Bool) (f : α → α) (l : List α) (a : α)
    (hpf : ∀ x, p x = true → p (f x) = true)
    (h : l.find? p = some a) :
    (updateFirst p f l).find? p = some (f a) := by
  induction l with
  | nil => simp at h
  | cons x xs ih =>
    by_cases hx : p x = true
    · rw [List.find?_cons_of_pos _ hx] at h
      have hax : x = a := by simpa using h
      subst hax
      simp only [updateFirst, hx, if_true]
      exact List.find?_cons_of_pos _ (hpf x hx)
    · rw [List.find?_cons_of_neg _ hx] at h
      simp only [updateFirst, hx, Bool.false_eq_true, if_false]
      rw [List.find?_cons_of_neg _ hx]
      exact ih h

/-- C2 (amended): for a message already marked read, a repeated view via
`get_message` by the receiver is a no-op on the store, but a repeated
explicit `mark_message_as_read` call succeeds and overwrites `read_at`
with the time of that second call while keeping `read_status` true — the
false→true transition is never reversed, but `read_at` is not kept at
its first-set value. (As originally stated — second mark-read call keeps
`read_at` unchanged — the claim fails; see the counterexample.) -/
theorem C2_mark_read_again (s : Store) (cu : UserR) (message_id : String) (m : MessageR)
    (now : Nat)
    (hv : isValidOid message_id = true)
    (hfind : s.messages.find? (fun x => x.oid == oidOf message_id) = some m)
    (hrecv : m.receiver_id = cu.oid)
    (hread : m.read_status = true) :
    (get_message s cu message_id now).2 = s ∧
    (mark_message_as_read s cu message_id now).1 = Except.ok "Message marqué comme lu" ∧
    ∃ m2, (mark_message_as_read s cu message_id now).2.messages.find?
        (fun x => x.oid == oidOf message_id) = some m2 ∧
      m2.read_status = true ∧ m2.read_at = some now := by
  have hrecvb : (m.receiver_id == cu.oid) = true := by simp [hrecv]
  refine ⟨?_, ?_, ?_⟩
  · simp only [get_message, hv, not_true_eq_false, if_false, hfind, hrecvb, hread]
    simp
  · have hconj : s.messages.find?
        (fun x => x.oid == oidOf message_id && x.receiver_id == cu.oid) = some m :=
      find?_and_of_find? _ _ _ m hfind hrecvb
    simp only [mark_message_as_read, hv, not_true_eq_false, if_false, hconj]
  · have hconj : s.messages.find?
        (fun x => x.oid == oidOf message_id && x.receiver_id == cu.oid) = some m :=
      find?_and_of_find? _ _ _ m hfind hrecvb
    simp only [mark_message_as_read, hv, not_true_eq_false, if_false, hconj]
    have hupd := find?_updateFirst (fun x => x.oid == oidOf message_id)
      (fun mm => { mm with read_status := true, read_at := some now }) s.messages m
      (fun x hx => hx) hfind
    exact ⟨_, hupd, rfl, rfl⟩

/-- An unread message from the admin to employee B. -/
def msgM1 : MessageR :=
  { oid := oidM1, sender_id := oidA, receiver_id := oidB, subject := none,
    content := "Bonjour", read_status := false, read_at := none, created_at := 0 }

/-- A store holding `msgM1`. -/
def storeMsg : Store :=
  { users := [adminA, empB], reports := [], comments := [], messages := [msgM1] }

/-- C2 witness: marking an already-read message again (read first at
time 5, marked again at time 10). -/
theorem C2_mark_read_witness :
    (get_message (mark_message_as_read storeMsg empB oidM1 5).2 empB oidM1 10).2
      = (mark_message_as_read storeMsg empB oidM1 5).2 ∧
    (mark_message_as_read (mark_message_as_read storeMsg empB oidM1 5).2 empB oidM1 10).1
      = Except.ok "Message marqué comme lu" ∧
    ∃ m2, (mark_message_as_read (mark_message_as_read storeMsg empB oidM1 5).2
        empB oidM1 10).2.messages.find? (fun x => x.oid == oidOf oidM1) = some m2 ∧
      m2.read_status = true ∧ m2.read_at = some 10 :=
  C2_mark_read_again (mark_message_as_read storeMsg empB oidM1 5).2 empB oidM1
    { msgM1 with read_status := true, read_at := some 5 } 10
    (by decide) (by decide) (by decide) (by decide)

/-- C2 counterexample: the first mark-read call sets `read_at` to 5; the
second call is not a no-op — it overwrites `read_at` with 10. -/
theorem C2_counterexample :
    ((mark_message_as_read storeMsg empB oidM1 5).2.messages.map (fun m => m.read_at))
      = [some 5] ∧
    ((mark_message_as_read (mark_message_as_read storeMsg empB oidM1 5).2
        empB oidM1 10).2.messages.map (fun m => m.read_at)) = [some 10] ∧
    (some 10 : Option Nat) ≠ some 5 := by
  refine ⟨by decide, by decide, by decide⟩

/-! ## Claim C5 -/

/-- C5: creating a week-based report when one already exists for the
same (user, week) yields the duplicate-week conflict error (HTTP 400,
"Un rapport existe déjà…" — the error the spec's taxonomy names
ConflictError), performs no write, and the count of reports for that
(user, week) stays 1. -/
theorem C5_duplicate_week_conflict (s : Store) (cu : UserR) (rd : ReportCreateData)
    (now : Nat) (newId : String)
    (hrole : cu.role = "employee")
    (hcount : s.reports.countP
      (fun r => r.user_id == cu.oid && r.week_iso == some rd.week_iso) = 1) :
    (create_report s cu rd now newId).1
      = Except.error ⟨400, "Un rapport existe déjà pour la semaine " ++ rd.week_iso⟩ ∧
    (create_report s cu rd now newId).2 = s ∧
    (create_report s cu rd now newId).2.reports.countP
      (fun r => r.user_id == cu.oid && r.week_iso == some rd.week_iso) = 1 := by
  have hex : ∃ r ∈ s.reports,
      (fun r : ReportR => r.user_id == cu.oid && r.week_iso == some rd.week_iso) r = true := by
    rw [← List.countP_pos_iff]
    omega
  have hsome : (s.reports.find?
      (fun r => r.user_id == cu.oid && r.week_iso == some rd.week_iso)).isSome := by
    rw [List.find?_isSome]
    exact hex
  obtain ⟨rex, hrex⟩ := Option.isSome_iff_exists.mp hsome
  have hrole' : ¬ (cu.role ≠ "employee") := by simp [hrole]
  simp only [create_report, if_neg hrole', hrex]
  exact ⟨trivial, trivial, hcount⟩

/-- C5 witness: employee B already has a report for 2024-W01; creating a
second one for the same week is rejected and the count stays 1. -/
theorem C5_duplicate_week_witness :
    (create_report storeAB empB
      { week_iso := "2024-W01", tasks := [taskT1] } 7 oidN1).1
      = Except.error ⟨400, "Un rapport existe déjà pour la semaine " ++ "2024-W01"⟩ ∧
    (create_report storeAB empB
      { week_iso := "2024-W01", tasks := [taskT1] } 7 oidN1).2 = storeAB ∧
    (create_report storeAB empB
      { week_iso := "2024-W01", tasks := [taskT1] } 7 oidN1).2.reports.countP
      (fun r => r.user_id == empB.oid && r.week_iso == some "2024-W01") = 1 :=
  C5_duplicate_week_conflict storeAB empB
    { week_iso := "2024-W01", tasks := [taskT1] } 7 oidN1 (by decide) (by decide)

/-! ## Claim C6 -/

/-- The derived-field invariant of the data model: a week-based report
(week_iso present) carries a task list whose summed hours equal its
stored `total_hours`. -/
def weekReportConsistent (r : ReportR) : Prop :=
  r.week_iso.isSome = true →
    r.tasks.isSome = true ∧ r.total_hours = some (sumHours (r.tasks.getD []))

/-- The invariant over the whole reports collection. -/
def storeWeekConsistent (s : Store) : Prop := ∀ r ∈ s.reports, weekReportConsistent r

/-- Every element of `updateFirst p f l` is an element of `l` or `f` of
one. -/
theorem mem_updateFirst (p : α → Bool) (f : α → α) (l : List α) :
    ∀ x ∈ updateFirst p f l, x ∈ l ∨ ∃ y ∈ l, x = f y := by
  induction l with
  | nil => simp [updateFirst]
  | cons a as ih =>
    intro x hx
    by_cases ha : p a = true
    · simp only [updateFirst, ha, if_true] at hx
      rcases List.mem_cons.mp hx with rfl | hx2
      · exact Or.inr ⟨a, List.mem_cons_self a as, rfl⟩
      · exact Or.inl (List.mem_cons_of_mem a hx2)
    · simp only [updateFirst, ha, Bool.false_eq_true, if_false] at hx
      rcases List.mem_cons.mp hx with rfl | hx2
      · exact Or.inl (List.mem_cons_self x as)
      · rcases ih x hx2 with h | ⟨y, hy, rfl⟩
        · exact Or.inl (List.mem_cons_of_mem a h)
        · exact Or.inr ⟨y, List.mem_cons_of_mem a hy, rfl⟩

theorem applyReportUpdate_oid (ru : ReportUpdateData) (now : Nat) (x : ReportR) :
    (applyReportUpdate ru now x).oid = x.oid := by
  simp only [applyReportUpdate]
  cases ru.tasks <;> cases ru.difficulties <;> cases ru.remarks <;> rfl

theorem applyReportUpdate_tasks_some (ru : ReportUpdateData) (now : Nat) (x : ReportR)
    (ts : List TaskItemR) (h : ru.tasks = some ts) :
    (applyReportUpdate ru now x).tasks = some ts ∧
    (applyReportUpdate ru now x).total_hours = some (sumHours ts) := by
  simp only [applyReportUpdate, h]
  cases ru.difficulties <;> cases ru.remarks <;> exact ⟨rfl, rfl⟩

/-- The `$set` of `update_report` preserves the derived-field
invariant: either the replacement task list comes with its recomputed
sum, or tasks and total are untouched. -/
theorem applyReportUpdate_consistent (ru : ReportUpdateData) (now : Nat) (r : ReportR)
    (h : weekReportConsistent r) : weekReportConsistent (applyReportUpdate ru now r) := by
  cases hts : ru.tasks with
  | some ts =>
    intro _
    have h2 := applyReportUpdate_tasks_some ru now r ts hts
    refine ⟨by rw [h2.1]; rfl, ?_⟩
    rw [h2.1, h2.2]
    rfl
  | none =>
    intro hweek
    have hkeep : (applyReportUpdate ru now r).tasks = r.tasks ∧
        (applyReportUpdate ru now r).total_hours = r.total_hours ∧
        (applyReportUpdate ru now r).week_iso = r.week_iso := by
      simp only [applyReportUpdate, hts]
      cases ru.difficulties <;> cases ru.remarks <;> exact ⟨rfl, rfl, rfl⟩
    have hr := h (by rw [← hkeep.2.2]; exact hweek)
    rw [hkeep.1, hkeep.2.1]
    exact hr

/-- C6: if every week-based report's `total_hours` equals the sum of its
current tasks' hours, then this still holds after any `create_report`
or `update_report` call; moreover an update carrying a replacement task
list leaves the target report holding exactly that replacement list and
its sum — never a merge with the old list. -/
theorem C6_total_hours_invariant (s : Store) (hinv : storeWeekConsistent s) :
    (∀ (cu : UserR) (rd : ReportCreateData) (now : Nat) (newId : String),
      storeWeekConsistent (create_report s cu rd now newId).2) ∧
    (∀ (cu : UserR) (report_id : String) (ru : ReportUpdateData) (now : Nat),
      storeWeekConsistent (update_report s cu report_id ru now).2) ∧
    (∀ (cu : UserR) (report_id : String) (ru : ReportUpdateData) (now : Nat)
      (ts : List TaskItemR) (ex : ReportR),
      ru.tasks = some ts →
      isValidOid report_id = true →
      s.reports.find? (fun r => r.oid == oidOf report_id && r.user_id == cu.oid) = some ex →
      ∃ ur, (update_report s cu report_id ru now).2.reports.find?
          (fun r => r.oid == oidOf report_id) = some ur ∧
        ur.tasks = some ts ∧ ur.total_hours = some (sumHours ts)) := by
  refine ⟨?_, ?_, ?_⟩
  · intro cu rd now newId
    by_cases hrole : cu.role ≠ "employee"
    · simp only [create_report, if_pos hrole]
      exact hinv
    · simp only [create_report, if_neg hrole]
      cases hfind : s.reports.find?
          (fun r => r.user_id == cu.oid && r.week_iso == some rd.week_iso) with
      | some ex =>
        simp only [hfind]
        exact hinv
      | none =>
        simp only [hfind]
        split
        · intro r hr
          rcases List.mem_append.mp hr with h | h
          · exact hinv r h
          · have := List.mem_singleton.mp h
            subst this
            exact fun _ => ⟨rfl, rfl⟩
        · intro r hr
          rcases List.mem_append.mp hr with h | h
          · exact hinv r h
          · have := List.mem_singleton.mp h
            subst this
            exact fun _ => ⟨rfl, rfl⟩
  · intro cu report_id ru now
    by_cases hv : isValidOid report_id
    · simp only [update_report, hv, not_true_eq_false, if_false]
      cases hfind : s.reports.find?
          (fun r => r.oid == oidOf report_id && r.user_id == cu.oid) with
      | none =>
        simp only [hfind]
        exact hinv
      | some ex =>
        simp only [hfind]
        split
        · intro r hr
          rcases mem_updateFirst _ _ _ r hr with h | ⟨y, hy, rfl⟩
          · exact hinv r h
          · exact applyReportUpdate_consistent ru now y (hinv y hy)
        · intro r hr
          rcases mem_updateFirst _ _ _ r hr with h | ⟨y, hy, rfl⟩
          · exact hinv r h
          · exact applyReportUpdate_consistent ru now y (hinv y hy)
    · have hvb : isValidOid report_id = false := by simpa using hv
      simp only [update_report, hvb, Bool.false_eq_true, not_false_eq_true, if_true]
      exact hinv
  · intro cu report_id ru now ts ex hts hv hfind
    have hfirst : (s.reports.find? (fun r => r.oid == oidOf report_id)).isSome = true := by
      rw [List.find?_isSome]
      refine ⟨ex, List.mem_of_find?_eq_some hfind, ?_⟩
      have := List.find?_some hfind
      simp only [Bool.and_eq_true] at this
      exact this.1
    obtain ⟨r0, hr0⟩ := Option.isSome_iff_exists.mp hfirst
    have hupd := find?_updateFirst (fun r => r.oid == oidOf report_id)
      (applyReportUpdate ru now) s.reports r0
      (fun x hx => by
        have hx2 : (x.oid == oidOf report_id) = true := hx
        show ((applyReportUpdate ru now x).oid == oidOf report_id) = true
        rw [applyReportUpdate_oid ru now x]
        exact hx2) hr0
    have hfields := applyReportUpdate_tasks_some ru now r0 ts hts
    simp only [update_report, hv, not_true_eq_false, if_false, hfind]
    refine ⟨applyReportUpdate ru now r0, ?_, hfields.1, hfields.2⟩
    split
    · exact hupd
    · exact hupd

/-- C6 witness: the invariant holds of the sample store and is preserved
by the sample create and update calls. -/
theorem C6_total_hours_witness :
    (∀ (cu : UserR) (rd : ReportCreateData) (now : Nat) (newId : String),
      storeWeekConsistent (create_report storeAB cu rd now newId).2) ∧
    (∀ (cu : UserR) (report_id : String) (ru : ReportUpdateData) (now : Nat),
      storeWeekConsistent (update_report storeAB cu report_id ru now).2) ∧
    (∀ (cu : UserR) (report_id : String) (ru : ReportUpdateData) (now : Nat)
      (ts : List TaskItemR) (ex : ReportR),
      ru.tasks = some ts →
      isValidOid report_id = true →
      storeAB.reports.find?
        (fun r => r.oid == oidOf report_id && r.user_id == cu.oid) = some ex →
      ∃ ur, (update_report storeAB cu report_id ru now).2.reports.find?
          (fun r => r.oid == oidOf report_id) = some ur ∧
        ur.tasks = some ts ∧ ur.total_hours = some (sumHours ts)) :=
  C6_total_hours_invariant storeAB (by
    intro r hr
    have hr2 : r = reportB := by
      have hmem : r ∈ [reportB] := hr
      simpa using hmem
    subst hr2
    intro _
    exact ⟨by decide, by simp [reportB, sumHours, taskT1]⟩)

/-! ## Claim C9 -/

/-- C9: every row produced by the weekly-statistics aggregation pipeline
groups at least one report, counts at least one distinct owning user,
and carries `average_hours_per_employee = total_hours / employees_reported`;
the `$cond` zero branch guards the division but no group with zero
reports (hence zero users) ever occurs. -/
theorem C9_weekly_stats_rows (s : Store) (start_week end_week : Option String)
    (rows : List WeeklyStatRow)
    (hok : get_weekly_stats s start_week end_week = Except.ok rows) :
    ∀ row ∈ rows, 0 < row.total_reports ∧ 0 < row.employees_reported ∧
      row.average_hours_per_employee = row.total_hours / (row.employees_reported : ℚ) := by
  intro row hrow
  simp only [get_weekly_stats] at hok
  split at hok
  · simp at hok
  · simp only [Except.ok.injEq] at hok
    have hmem : row ∈ weeklyStatRows (s.reports.filter (weekFilterMatches start_week end_week)) := by
      rw [← hok] at hrow
      exact List.mem_mergeSort.mp hrow
    simp only [weeklyStatRows, List.mem_map] at hmem
    obtain ⟨k, hk, hrow_eq⟩ := hmem
    have hkmem : k ∈ (s.reports.filter (weekFilterMatches start_week end_week)).map
        (fun r => r.week_iso) := List.mem_dedup.mp hk
    obtain ⟨r0, hr0, hr0k⟩ := List.mem_map.mp hkmem
    have hg : r0 ∈ (s.reports.filter (weekFilterMatches start_week end_week)).filter
        (fun r => r.week_iso == k) :=
      List.mem_filter.mpr ⟨hr0, by simp [hr0k]⟩
    have hglen : 0 < ((s.reports.filter (weekFilterMatches start_week end_week)).filter
        (fun r => r.week_iso == k)).length :=
      List.length_pos.mpr (List.ne_nil_of_mem hg)
    have hemem : r0.user_id ∈ (((s.reports.filter (weekFilterMatches start_week end_week)).filter
        (fun r => r.week_iso == k)).map (fun r => r.user_id)).dedup := by
      rw [List.mem_dedup]
      exact List.mem_map_of_mem _ hg
    have helen : 0 < (((s.reports.filter (weekFilterMatches start_week end_week)).filter
        (fun r => r.week_iso == k)).map (fun r => r.user_id)).dedup.length :=
      List.length_pos.mpr (List.ne_nil_of_mem hemem)
    subst hrow_eq
    exact ⟨hglen, helen, by simp only [if_pos helen]⟩

/-- The single statistics row of the sample store. -/
def rowX : WeeklyStatRow :=
  { week_iso := some "2024-W01", total_reports := 1, total_hours := 3,
    employees_reported := 1, average_hours_per_employee := 3 }

/-- C9 witness: the pipeline row of the sample store satisfies the
average formula with a positive user count. -/
theorem C9_weekly_stats_witness :
    0 < rowX.total_reports ∧ 0 < rowX.employees_reported ∧
    rowX.average_hours_per_employee = rowX.total_hours / (rowX.employees_reported : ℚ) :=
  C9_weekly_stats_rows storeAB none none [rowX]
    (by
      simp only [get_weekly_stats, weeklyStatRows, weekFilterMatches, storeAB, reportB,
        rowX, List.filter, List.map, List.dedup_nil, List.dedup_cons_of_not_mem,
        List.not_mem_nil, not_false_eq_true]
      norm_num [sumHours, List.mergeSort])
    rowX (by simp)

/-! ## Claim C7 -/

/-- A receiver id resolves when it is a well-formed ObjectId naming an
active employee. -/
def resolvesActiveEmployee (s : Store) (rid : String) : Prop :=
  isValidOid rid = true ∧
    ∃ u ∈ s.users, u.oid = oidOf rid ∧ u.role = "employee" ∧ u.status = "active"

theorem broadcast_receivers_nodup (s : Store) (X : List String)
    (hnd : (s.users.map (fun u => u.oid)).Nodup) :
    ((s.users.filter (fun u => X.contains u.oid && u.role == "employee"
      && u.status == "active")).map (fun u => u.oid)).Nodup :=
  hnd.sublist ((s.users.filter_sublist).map (fun u => u.oid))

theorem strContains_iff_mem {l : List String} {a : String} :
    l.contains a = true ↔ a ∈ l := by
  simp [List.contains, List.elem_iff]

instance (s : Store) (rid : String) : Decidable (resolvesActiveEmployee s rid) := by
  unfold resolvesActiveEmployee
  infer_instance

theorem broadcast_receivers_subset (s : Store) (X : List String) :
    ((s.users.filter (fun u => X.contains u.oid && u.role == "employee"
      && u.status == "active")).map (fun u => u.oid)) ⊆ X := by
  intro o ho
  obtain ⟨u, hu, huo⟩ := List.mem_map.mp ho
  have hP := List.of_mem_filter hu
  simp only [Bool.and_eq_true, strContains_iff_mem] at hP
  rw [← huo]
  exact hP.1.1

theorem zipWith_receiver_ids (cu : UserR) (bd : BroadcastData) (now : Nat) :
    ∀ (ids : List String) (rs : List UserR), ids.length = rs.length →
    (List.zipWith (mkBroadcastMsg cu bd now) ids rs).map (fun m => m.receiver_id)
      = rs.map (fun u => u.oid) := by
  intro ids
  induction ids with
  | nil =>
    intro rs h
    cases rs with
    | nil => simp
    | cons r rt => simp at h
  | cons i it ih =>
    intro rs h
    cases rs with
    | nil => simp at h
    | cons r rt =>
      simp only [List.zipWith_cons_cons, List.map_cons, mkBroadcastMsg]
      rw [ih rt (by simpa using h)]

theorem dedup_length_lt_of_not_nodup {l : List String} (h : ¬ l.Nodup) :
    l.dedup.length < l.length := by
  have hsub := List.dedup_sublist l
  have hle := hsub.length_le
  rcases Nat.lt_or_ge l.dedup.length l.length with hlt | hge
  · exact hlt
  · exfalso
    have heq : l.dedup = l := hsub.eq_of_length (by omega)
    exact h (List.dedup_eq_self.mp heq)

/-- C7 (amended): a broadcast whose receiver list contains any id that
does not resolve to an active employee — or any duplicate id — is
rejected whole, with zero messages created; when the (normalised) ids
are pairwise distinct and all resolve, exactly one message per receiver
is appended, the multiset of their receiver ids matching the requested
ids. (As originally stated — "if all resolve, one message per receiver"
with no distinctness condition — the claim fails on duplicate receiver
lists; see the counterexample.) -/
theorem C7_broadcast_all_or_nothing (s : Store) (cu : UserR) (bd : BroadcastData) (now : Nat)
    (newId : Nat → String)
    (hnd : (s.users.map (fun u => u.oid)).Nodup) :
    ((∃ rid ∈ bd.receiver_ids, ¬ resolvesActiveEmployee s rid) →
      (broadcast_message s cu bd now newId).2 = s ∧
      ∃ e, (broadcast_message s cu bd now newId).1 = Except.error e) ∧
    (¬ (bd.receiver_ids.map oidOf).Nodup →
      (broadcast_message s cu bd now newId).2 = s ∧
      ∃ e, (broadcast_message s cu bd now newId).1 = Except.error e) ∧
    ((bd.receiver_ids.map oidOf).Nodup →
      (∀ rid ∈ bd.receiver_ids, resolvesActiveEmployee s rid) →
      ∃ newMsgs, (broadcast_message s cu bd now newId).2.messages = s.messages ++ newMsgs ∧
        List.Perm (newMsgs.map (fun m => m.receiver_id)) (bd.receiver_ids.map oidOf)) := by
  refine ⟨?_, ?_, ?_⟩
  · rintro ⟨rid0, hrid0, hnres⟩
    simp only [broadcast_message]
    cases hfi : bd.receiver_ids.find? (fun rid => ¬ isValidOid rid) with
    | some r =>
      exact ⟨rfl, _, rfl⟩
    | none =>
      have hvalid : ∀ rid ∈ bd.receiver_ids, isValidOid rid = true := by
        intro rid hr
        have := List.find?_eq_none.mp hfi rid hr
        simpa using this
      have hval0 : isValidOid rid0 = true := hvalid rid0 hrid0
      have hnouser : ¬ ∃ u ∈ s.users,
          u.oid = oidOf rid0 ∧ u.role = "employee" ∧ u.status = "active" :=
        fun hex => hnres ⟨hval0, hex⟩
      set X := bd.receiver_ids.map oidOf with hX
      set rs := s.users.filter
        (fun u => X.contains u.oid && u.role == "employee" && u.status == "active") with hrs
      have hnodup : (rs.map (fun u => u.oid)).Nodup := broadcast_receivers_nodup s X hnd
      have hsub : rs.map (fun u => u.oid) ⊆ X := broadcast_receivers_subset s X
      have ho0X : oidOf rid0 ∈ X := List.mem_map_of_mem _ hrid0
      have ho0dedup : oidOf rid0 ∈ X.dedup := List.mem_dedup.mpr ho0X
      have ho0not : oidOf rid0 ∉ rs.map (fun u => u.oid) := by
        intro hmem
        obtain ⟨u, hu, huoid⟩ := List.mem_map.mp hmem
        have hP := List.of_mem_filter hu
        simp only [Bool.and_eq_true, beq_iff_eq] at hP
        exact hnouser ⟨u, List.mem_of_mem_filter hu, huoid, hP.1.2, hP.2⟩
      have hsub2 : rs.map (fun u => u.oid) ⊆ X.dedup.erase (oidOf rid0) := by
        intro o ho
        have hne : o ≠ oidOf rid0 := fun h => ho0not (h ▸ ho)
        rw [List.mem_erase_of_ne hne]
        exact List.mem_dedup.mpr (hsub ho)
      have hlen1 : (rs.map (fun u => u.oid)).length ≤ (X.dedup.erase (oidOf rid0)).length :=
        (List.subperm_of_subset hnodup hsub2).length_le
      have hlen1b : rs.length ≤ X.dedup.length - 1 := by
        rw [List.length_map] at hlen1
        rw [List.length_erase_of_mem ho0dedup] at hlen1
        exact hlen1
      have hlen2 : X.dedup.length ≤ X.length := (List.dedup_sublist X).length_le
      have hXlen : X.length = bd.receiver_ids.length := List.length_map _ _
      have hpos : 0 < X.dedup.length := List.length_pos.mpr (List.ne_nil_of_mem ho0dedup)
      have hfin : rs.length ≠ bd.receiver_ids.length := by omega
      simp only [if_pos hfin]
      exact ⟨trivial, _, rfl⟩
  · intro hdup
    simp only [broadcast_message]
    cases hfi : bd.receiver_ids.find? (fun rid => ¬ isValidOid rid) with
    | some r =>
      exact ⟨rfl, _, rfl⟩
    | none =>
      set X := bd.receiver_ids.map oidOf with hX
      set rs := s.users.filter
        (fun u => X.contains u.oid && u.role == "employee" && u.status == "active") with hrs
      have hnodup : (rs.map (fun u => u.oid)).Nodup := broadcast_receivers_nodup s X hnd
      have hsub : rs.map (fun u => u.oid) ⊆ X.dedup :=
        fun o ho => List.mem_dedup.mpr (broadcast_receivers_subset s X ho)
      have hlen1 : (rs.map (fun u => u.oid)).length ≤ X.dedup.length :=
        (List.subperm_of_subset hnodup hsub).length_le
      have hlen2 : X.dedup.length < X.length := dedup_length_lt_of_not_nodup hdup
      have hXlen : X.length = bd.receiver_ids.length := List.length_map _ _
      have hfin : rs.length ≠ bd.receiver_ids.length := by
        rw [List.length_map] at hlen1
        omega
      simp only [if_pos hfin]
      exact ⟨trivial, _, rfl⟩
  · intro hdupn hres
    simp only [broadcast_message]
    cases hfi : bd.receiver_ids.find? (fun rid => ¬ isValidOid rid) with
    | some r =>
      exfalso
      have hr := List.find?_some hfi
      have hrmem := List.mem_of_find?_eq_some hfi
      have hval := (hres r hrmem).1
      simp only [hval] at hr
      simp at hr
    | none =>
      set X := bd.receiver_ids.map oidOf with hX
      set rs := s.users.filter
        (fun u => X.contains u.oid && u.role == "employee" && u.status == "active") with hrs
      have hnodup : (rs.map (fun u => u.oid)).Nodup := broadcast_receivers_nodup s X hnd
      have hsub : rs.map (fun u => u.oid) ⊆ X := broadcast_receivers_subset s X
      have hsup : X ⊆ rs.map (fun u => u.oid) := by
        intro o ho
        obtain ⟨rid, hrid, hor⟩ := List.mem_map.mp ho
        obtain ⟨hval, u, hu, huoid, hrole, hstat⟩ := hres rid hrid
        refine List.mem_map.mpr ⟨u, ?_, by rw [huoid, hor]⟩
        refine List.mem_filter.mpr ⟨hu, ?_⟩
        have hcont : X.contains u.oid = true := by
          rw [strContains_iff_mem, huoid, hor]
          exact ho
        show (X.contains u.oid && u.role == "employee" && u.status == "active") = true
        rw [Bool.and_eq_true, Bool.and_eq_true]
        refine ⟨⟨hcont, ?_⟩, ?_⟩
        · simp [hrole]
        · simp [hstat]
      have hperm : List.Perm (rs.map (fun u => u.oid)) X :=
        (List.subperm_of_subset hnodup hsub).antisymm
          (List.subperm_of_subset hdupn hsup)
      have hleneq : rs.length = bd.receiver_ids.length := by
        have h1 := hperm.length_eq
        rw [List.length_map] at h1
        rw [h1]
        exact List.length_map _ _
      have hguard : ¬ (rs.length ≠ bd.receiver_ids.length) := by omega
      simp only [if_neg hguard]
      have hids : ((List.range rs.length).map newId).length = rs.length := by
        simp
      have hmap := zipWith_receiver_ids cu bd now ((List.range rs.length).map newId) rs hids
      split
      · refine ⟨_, rfl, ?_⟩
        rw [hmap]
        exact hperm
      · refine ⟨_, rfl, ?_⟩
        rw [hmap]
        exact hperm

/-- Two active employees for a successful broadcast. -/
def storeBC : Store :=
  { users := [adminA, empB, empC], reports := [], comments := [], messages := [] }

/-- A broadcast body naming employees B and C once each. -/
def bdBC : BroadcastData :=
  { receiver_ids := [oidB, oidC], subject := none, content := "Info" }

/-- A broadcast body naming employee B twice. -/
def bdDup : BroadcastData :=
  { receiver_ids := [oidB, oidB], subject := none, content := "Salut" }

/-- C7 witness: broadcasting to the distinct, resolving ids B and C
appends exactly one message per receiver. -/
theorem C7_broadcast_witness :
    ∃ newMsgs, (broadcast_message storeBC adminA bdBC 0 (fun _ => oidN1)).2.messages
        = storeBC.messages ++ newMsgs ∧
      List.Perm (newMsgs.map (fun m => m.receiver_id)) (bdBC.receiver_ids.map oidOf) :=
  (C7_broadcast_all_or_nothing storeBC adminA bdBC 0 (fun _ => oidN1) (by decide)).2.2
    (by decide) (by decide)

/-- C7 counterexample: every id in [B, B] resolves to an active
employee, yet the broadcast is rejected with zero messages created — the
claim's "if all resolve, one message per receiver" direction fails on
duplicate receiver lists. -/
theorem C7_counterexample :
    (∀ rid ∈ bdDup.receiver_ids, resolvesActiveEmployee storeMsg rid) ∧
    broadcast_message storeMsg adminA bdDup 0 (fun _ => oidN1)
      = (Except.error ⟨400, "Certains destinataires sont invalides ou inactifs"⟩, storeMsg) := by
  refine ⟨by decide, by decide⟩
